import Mathlib

/-!
Shallow embedding of flang's `lib/Semantics/compute-offsets.cpp`
(`Fortran::semantics::ComputeOffsetsHelper`), together with proofs that
settle the claims of the natural-language specification against it.

Symbols are represented by `Nat` identifiers standing for their addresses
(the C++ maps are ordered by `SymbolAddressCompare`, so the identifier
order is the map iteration order).  `std::size_t` arithmetic is modelled
over `Nat` with explicit reduction modulo `2 ^ 64` wherever the C++
computation can wrap.  External collaborators (the type-size oracle, the
target characteristics, the designator renderer used for diagnostics, and
the AIX special-alignment query) are parameters of the embedding, exactly
as the specification describes them as external oracles.
-/

namespace ComputeOffsets

/-! ## `std::size_t` arithmetic (64-bit, wrapping) -/

/-- The modulus of `std::size_t` arithmetic (64-bit target). -/
def W : Nat := 2 ^ 64

/-- Wrapping addition of two `size_t` values. -/
def addW (a b : Nat) : Nat := (a + b) % W

/-- Wrapping multiplication of two `size_t` values. -/
def mulW (a b : Nat) : Nat := (a * b) % W

/-- Wrapping subtraction `a - b` of two `size_t` values (two's complement). -/
def subW (a b : Nat) : Nat := (a + (W - b % W)) % W

/-- Unsigned negation `-a` on `size_t`. -/
def negW (a : Nat) : Nat := (W - a % W) % W

/-- Conversion of a signed 64-bit value (`ConstantSubscript`, i.e. `int64_t`)
to `size_t`: reduction modulo `2 ^ 64`. -/
def toU64 (i : Int) : Nat := (i % (W : Int)).toNat

/-! ## The alignment policy (`ComputeOffsetsHelper::Align`)

```cpp
std::size_t ComputeOffsetsHelper::Align(std::size_t x, std::size_t alignment) {
  alignment = std::min(alignment, context_.targetCharacteristics().maxAlignment());
  return (x + alignment - 1) & -alignment;
}
```
-/

/-- Embedding of `ComputeOffsetsHelper::Align`:
clamp the alignment to the target's `maxAlignment`, then apply the
power-of-two round-up bit trick, in wrapping `size_t` arithmetic. -/
def align (maxAlignment : Nat) (x a : Nat) : Nat :=
  (subW (addW x (min a maxAlignment)) 1) &&& (negW (min a maxAlignment))

/-- Modelled from the spec: `roundUp(offset, m)`, the least multiple of `m`
that is `≥ offset`, written as the usual `((x + m - 1) / m) * m`. -/
def roundUpSpec (x m : Nat) : Nat := ((x + m - 1) / m) * m

/-! ## Data model -/

/-- The four disjoint symbol classes distinguished by
`GetSizeAndAlignment`. -/
inductive SymClass where
  | object       -- ordinary data object (`ObjectEntityDetails`)
  | procPointer  -- procedure pointer
  | procedure    -- plain procedure (zero size)
  | descriptor   -- dynamically-described entity (sized by the oracle)
  | other        -- neither object nor procedure details (skipped by DoSymbol)
deriving DecidableEq, Repr

/-- The mutable and immutable per-symbol data this pass reads and writes.
`offset`, `size` and `commonBlock` are the fields the pass assigns;
the rest is upstream information (type class, declared array bounds,
intrinsic character kind, common-block membership from declarations,
a generic's specific procedure). -/
structure SymbolData where
  klass : SymClass := .object
  offset : Nat := 0
  size : Nat := 0
  commonBlock : Option Nat := none
  shapeLb : List Int := []
  shapeUb : List Int := []
  charKind : Option Nat := none
  genericSpecific : Option Nat := none
deriving DecidableEq, Repr

/-- External configuration: target characteristics and the external
type-size / designator-rendering / AIX-alignment oracles. -/
structure Config where
  maxAlignment : Nat
  descriptorAlignment : Nat := 8
  procedurePointerByteSize : Nat := 8
  procedurePointerAlignment : Nat := 8
  defaultCharKind : Nat := 1
  isAIX : Bool := false
  descriptorSize : Nat → Nat := fun _ => 48
  measureSize : Nat → Option Nat := fun _ => none      -- whole-object size
  measureElemSize : Nat → Option Nat := fun _ => none  -- element size
  getAlign : Nat → Nat := fun _ => 1                   -- natural alignment
  specialAlign : Nat → Option Nat := fun _ => none     -- HasSpecialAlign
  offsetToDesignator : Nat → Nat → Option String := fun _ _ => none

/-- `SizeAndAlignment` of the C++ helper. -/
structure SizeAndAlignment where
  size : Nat := 0
  alignment : Nat := 0
deriving DecidableEq, Repr

/-- An `EquivalenceObject`: a symbol reference with optional constant
subscripts and optional substring start, plus its source reference
(identified by a `Nat` standing for the source range). -/
structure EqObj where
  symbol : Nat
  subscripts : List Int := []
  substringStart : Option Int := none
  source : Nat := 0
deriving DecidableEq, Repr

/-- `SymbolAndOffset` of the C++ helper: a symbol, a `size_t` offset, and
the equivalence object it came from. -/
structure SymbolAndOffset where
  symbol : Nat
  offset : Nat
  object : EqObj
deriving DecidableEq, Repr

/-- A common block: its declared member list (declaration order), whether
its name is empty (blank COMMON), and the size/alignment this pass
assigns. -/
structure BlockData where
  members : List Nat := []
  nameEmpty : Bool := false
  size : Nat := 0
  alignment : Nat := 0
deriving DecidableEq, Repr

/-- The diagnostics this pass can emit, carrying exactly the data the C++
messages interpolate. -/
inductive Diag where
  /-- "COMMON block /%s/ requires %zd bytes of padding before '%s' for
  alignment" (a warning). -/
  | commonBlockPadding (block : Nat) (padding : Nat) (member : Nat)
  /-- "'%s' is storage associated with '%s' by EQUIVALENCE elsewhere in
  COMMON block /%s/" -/
  | equivElsewhere (site : Nat) (symbol : Nat) (base : Nat) (block : Nat)
  /-- "'%s' in COMMON block /%s/ must not be storage associated with '%s'
  in COMMON block /%s/ by EQUIVALENCE" -/
  | equivCrossBlock (site : Nat) (symbol : Nat) (block : Nat) (base : Nat)
      (baseBlock : Nat)
  /-- "'%s' cannot backward-extend COMMON block /%s/ via EQUIVALENCE with
  '%s'" -/
  | backwardExtend (site : Nat) (symbol : Nat) (block : Nat) (base : Nat)
  /-- "'%s' and '%s' cannot have the same first storage unit", citing both
  references by rendered designator text, with the incompatible reference
  attached. -/
  | conflictDesignators (site : Nat) (x y : String) (attachSite : Nat)
  /-- Fallback conflict report by symbol name and numeric byte offsets. -/
  | conflictNumeric (site : Nat) (symbol : Nat) (baseOffset offset : Nat)
      (attachSite : Nat)
deriving DecidableEq, Repr

/-! ## Ordered association lists

The two C++ maps (`dependents_`, `equivalenceBlock_`) are `std::map`s
ordered by `SymbolAddressCompare`; the `Nat` identifier plays the role of
the address, so the maps are association lists kept sorted by key. -/

/-- `std::map::find`. -/
def lookupA {α : Type} (l : List (Nat × α)) (k : Nat) : Option α :=
  (l.find? (fun p => p.1 == k)).map (fun p => p.2)

/-- Insertion keeping the list sorted by key (no duplicate check here). -/
def insertSorted {α : Type} (k : Nat) (v : α) : List (Nat × α) → List (Nat × α)
  | [] => [(k, v)]
  | p :: rest => if k < p.1 then (k, v) :: p :: rest else p :: insertSorted k v rest

/-- `std::map::emplace`: insert only if the key is absent. -/
def emplaceA {α : Type} (l : List (Nat × α)) (k : Nat) (v : α) : List (Nat × α) :=
  if (lookupA l k).isSome then l else insertSorted k v l

/-- Assignment to the mapped value of an existing key. -/
def updateA {α : Type} (l : List (Nat × α)) (k : Nat) (v : α) : List (Nat × α) :=
  l.map (fun p => if p.1 == k then (k, v) else p)

/-! ## `GetSizeAndAlignment` and `DoSymbol` -/

/-- Embedding of `ComputeOffsetsHelper::GetSizeAndAlignment`: the four
disjoint symbol classes, with the type-size oracle for data objects
(`entire` selects whole-object vs element size; a failed measurement
yields the default `{0, 0}`). -/
def getSizeAndAlignment (cfg : Config) (tbl : Nat → SymbolData) (sym : Nat)
    (entire : Bool) : SizeAndAlignment :=
  match (tbl sym).klass with
  | .descriptor => ⟨cfg.descriptorSize sym, cfg.descriptorAlignment⟩
  | .procPointer => ⟨cfg.procedurePointerByteSize, cfg.procedurePointerAlignment⟩
  | .procedure => ⟨0, 0⟩
  | _ =>
    match (if entire then cfg.measureSize sym else cfg.measureElemSize sym) with
    | some sz => ⟨sz, cfg.getAlign sym⟩
    | none => ⟨0, 0⟩

/-- The mutable state of one scope's processing pass
(`ComputeOffsetsHelper`'s fields plus the symbol/common-block tables it
annotates and the diagnostics it emits). -/
structure PassState where
  symtab : Nat → SymbolData
  blocks : Nat → BlockData
  offset : Nat := 0
  alignment : Nat := 1
  dependents : List (Nat × SymbolAndOffset) := []
  equivalenceBlock : List (Nat × SizeAndAlignment) := []
  diags : List Diag := []

/-- Update one symbol's entry in the symbol table. -/
def setSym (st : PassState) (k : Nat) (f : SymbolData → SymbolData) : PassState :=
  { st with symtab := Function.update st.symtab k (f (st.symtab k)) }

/-- Embedding of `ComputeOffsetsHelper::DoSymbol`: place one symbol at the
current offset cursor, rounded up to its (possibly overridden) alignment;
returns the updated state and the padding inserted.  Symbols that are
neither data objects nor procedure entities, and zero-size symbols, are
skipped. -/
def doSymbol (cfg : Config) (st : PassState) (sym : Nat)
    (newAlign : Option Nat := none) : PassState × Nat :=
  if (st.symtab sym).klass = .other then (st, 0)
  else
    let s := getSizeAndAlignment cfg st.symtab sym true
    if s.size = 0 then (st, 0)
    else
      let alignVal := newAlign.getD s.alignment
      let newOffset := align cfg.maxAlignment st.offset alignVal
      let padding := subW newOffset st.offset
      let st := setSym st sym (fun sd => { sd with size := s.size, offset := newOffset })
      ({ st with offset := addW newOffset s.size,
                 alignment := max st.alignment alignVal }, padding)

/-! ## `ComputeOffset`: local byte offset of an equivalence object -/

/-- The subscript-linearization loop of `ComputeOffset`, iterating
dimensions from last to first in wrapping `size_t` arithmetic:
`offset += subscript[i] - lbound(i)` and, before moving to the next lower
dimension, `offset *= ubound(i) - lbound(i) + 1`. -/
def offsetLinear : List Int → List Int → List Int → Nat
  | [s], l :: _, _ => toU64 (s - l)
  | s :: ss, l :: ls, u :: us =>
    addW (toU64 (s - l)) (mulW (toU64 (u - l + 1)) (offsetLinear ss ls us))
  | _, _, _ => 0

/-- Embedding of `ComputeOffsetsHelper::ComputeOffset`: linearize constant
subscripts (if the symbol is an object entity), multiply by the symbol's
*element* size, then add the substring displacement
`kind * (substringStart - 1)` using the intrinsic character kind (default
kind when the type is not inspectable). -/
def computeOffset (cfg : Config) (tbl : Nat → SymbolData) (o : EqObj) : Nat :=
  let sd := tbl o.symbol
  let offset :=
    if o.subscripts.isEmpty then 0
    else if sd.klass = .object ∨ sd.klass = .descriptor then
      offsetLinear o.subscripts sd.shapeLb sd.shapeUb
    else 0
  let result := mulW offset (getSizeAndAlignment cfg tbl o.symbol false).size
  match o.substringStart with
  | none => result
  | some s =>
    let kind := sd.charKind.getD cfg.defaultCharKind
    addW result (toU64 ((kind : Int) * (s - 1)))

/-! ## `Resolve` -/

/-- Embedding of `ComputeOffsetsHelper::Resolve`, with explicit fuel
standing for the C++ call stack: chase the dependency chain of
`dep.symbol`; on success the accumulated offset is added and the original
object kept.  `none` means the fuel ran out (which the termination
theorems below show cannot happen on maps built by this pass when the
fuel is `dependents.length + 1`). -/
def resolveDep (deps : List (Nat × SymbolAndOffset)) :
    Nat → SymbolAndOffset → Option SymbolAndOffset
  | 0, _ => none
  | fuel + 1, dep =>
    match lookupA deps dep.symbol with
    | none => some dep
    | some d2 =>
      match resolveDep deps fuel d2 with
      | none => none
      | some r => some { r with offset := addW r.offset dep.offset, object := dep.object }

/-- Resolution as `DoEquivalenceSet` and the resolution pass perform it:
fuel `dependents.length + 1`, falling back to the unresolved dependency if
the fuel runs out (dead code on maps built by this pass). -/
def resolveNow (deps : List (Nat × SymbolAndOffset)) (dep : SymbolAndOffset) :
    SymbolAndOffset :=
  (resolveDep deps (deps.length + 1) dep).getD dep

/-! ## `DoEquivalenceSet` -/

/-- The representative-selection loop: scan the resolved objects in order,
taking the current object as representative whenever there is none yet or
its resolved offset is `≥` the current representative's.  Returns the
chosen index and element. -/
def chooseRepGo (i : Nat) (cur : Option (Nat × SymbolAndOffset)) :
    List SymbolAndOffset → Option (Nat × SymbolAndOffset)
  | [] => cur
  | r :: rest =>
    let cur' := match cur with
      | none => some (i, r)
      | some (j, c) => if c.offset ≤ r.offset then some (i, r) else some (j, c)
    chooseRepGo (i + 1) cur' rest

/-- Representative of a resolved equivalence set (index and element). -/
def chooseRep (l : List SymbolAndOffset) : Option (Nat × SymbolAndOffset) :=
  chooseRepGo 0 none l

/-- The conflict diagnostic of `DoEquivalenceSet`: render both references
through the external designator oracle when possible, otherwise fall back
to symbol name plus numeric offsets. -/
def conflictDiag (cfg : Config) (base r : SymbolAndOffset) : Diag :=
  match cfg.offsetToDesignator r.symbol base.offset,
        cfg.offsetToDesignator r.symbol r.offset with
  | some x, some y => .conflictDesignators base.object.source x y r.object.source
  | _, _ => .conflictNumeric base.object.source r.symbol base.offset r.offset
      r.object.source

/-- One iteration of the recording loop of `DoEquivalenceSet` (its second
`for`): either check consistency against the representative's base
(reporting a conflict at differing offsets) or record a dependency edge
on the representative's base at the offset difference. -/
def recordEdgeStep (cfg : Config) (base : SymbolAndOffset) (st : PassState)
    (r : SymbolAndOffset) : PassState :=
  if r.symbol = base.symbol then
    if r.offset ≠ base.offset then
      { st with diags := st.diags ++ [conflictDiag cfg base r] }
    else st
  else
    let d : SymbolAndOffset :=
      { symbol := base.symbol, offset := subW base.offset r.offset,
        object := r.object }
    { st with dependents := emplaceA st.dependents r.symbol d }

/-- The recording loop of `DoEquivalenceSet` over all resolved objects. -/
def recordEdges (cfg : Config) (base : SymbolAndOffset) (st : PassState)
    (symbolOffsets : List SymbolAndOffset) : PassState :=
  symbolOffsets.foldl (recordEdgeStep cfg base) st

/-- The first loop of `DoEquivalenceSet`: each member object's local
offset, resolved through the already-known dependency edges. -/
def resolvedObjects (cfg : Config) (st : PassState) (set : List EqObj) :
    List SymbolAndOffset :=
  set.map (fun o =>
    resolveNow st.dependents ⟨o.symbol, computeOffset cfg st.symtab o, o⟩)

/-- Embedding of `ComputeOffsetsHelper::DoEquivalenceSet`: resolve every
member object, choose the representative (maximum resolved offset, `≥`
tie-break), then record edges / report conflicts.  An empty set (on which
the C++ `CHECK(representative)` would abort) leaves the state unchanged. -/
def doEquivalenceSet (cfg : Config) (st : PassState) (set : List EqObj) :
    PassState :=
  let symbolOffsets := resolvedObjects cfg st set
  match chooseRep symbolOffsets with
  | none => st
  | some (_, base) => recordEdges cfg base st symbolOffsets

/-! ## The resolution pass of `Compute` (lines 153–169) -/

/-- One entry of the resolution pass: path-compress the entry, record the
symbol's size from the oracle, and fold `dep.offset + size` into the
aggregate size/alignment of the base's equivalence block. -/
def resolvePassStep (cfg : Config) (st : PassState) (k : Nat) : PassState :=
  match lookupA st.dependents k with
  | none => st
  | some dep0 =>
    let dep := resolveNow st.dependents dep0
    let symInfo := getSizeAndAlignment cfg st.symtab k true
    let st := setSym st k (fun sd => { sd with size := symInfo.size })
    let st := { st with dependents := updateA st.dependents k dep }
    let minBlockSize := addW dep.offset symInfo.size
    match lookupA st.equivalenceBlock dep.symbol with
    | none =>
      let info : SizeAndAlignment :=
        { size := minBlockSize, alignment := symInfo.alignment }
      { st with equivalenceBlock := emplaceA st.equivalenceBlock dep.symbol info }
    | some blockInfo =>
      let info : SizeAndAlignment :=
        { size := max blockInfo.size minBlockSize,
          alignment := max blockInfo.alignment symInfo.alignment }
      { st with equivalenceBlock := updateA st.equivalenceBlock dep.symbol info }

/-- The resolution pass: iterate the dependency map in key order,
path-compressing entries in place and building the per-base aggregate
map. -/
def resolvePass (cfg : Config) (st : PassState) : PassState :=
  (st.dependents.map (fun p => p.1)).foldl (resolvePassStep cfg) st

/-! ## Placing non-COMMON equivalence-block bases (lines 171–177) -/

/-- `DoEquivalenceBlockBase`: widen the aggregate to cover the base
symbol's own size. -/
def doEquivalenceBlockBase (sd : SymbolData) (info : SizeAndAlignment) :
    SizeAndAlignment :=
  if sd.size > info.size then { info with size := sd.size } else info

/-- Place one equivalence-block base symbol (if it is not in a COMMON
block) and widen the offset cursor to cover the aggregate extent. -/
def placeEqBlockStep (cfg : Config) (st : PassState) (k : Nat) : PassState :=
  if (st.symtab k).commonBlock.isSome then st
  else
    let st := (doSymbol cfg st k none).1
    match lookupA st.equivalenceBlock k with
    | none => st
    | some info =>
      let info := doEquivalenceBlockBase (st.symtab k) info
      let st := { st with equivalenceBlock := updateA st.equivalenceBlock k info }
      { st with offset := max st.offset (addW ((st.symtab k).offset) info.size) }

/-- The placement loop over all equivalence-block bases (map key order). -/
def placeEqBlocks (cfg : Config) (st : PassState) : PassState :=
  (st.equivalenceBlock.map (fun p => p.1)).foldl (placeEqBlockStep cfg) st

/-! ## Placing the remaining non-COMMON symbols (lines 180–200) -/

/-- Place one declared symbol if it is neither in a COMMON block, nor a
dependent, nor an equivalence-block base; on AIX consult the special
alignment oracle; re-place a generic's shadowed specific procedure. -/
def placeSymbolStep (cfg : Config) (st : PassState) (sym : Nat) : PassState :=
  if (st.symtab sym).commonBlock.isNone ∧ lookupA st.dependents sym = none ∧
      lookupA st.equivalenceBlock sym = none then
    let newAlign := if cfg.isAIX then cfg.specialAlign sym else none
    let st := (doSymbol cfg st sym newAlign).1
    match (st.symtab sym).genericSpecific with
    | some specific =>
      if (st.symtab specific).commonBlock.isNone then (doSymbol cfg st specific none).1
      else st
    | none => st
  else st

/-! ## `DoCommonBlock` -/

/-- The per-block accumulators of `DoCommonBlock` (`minSize`,
`minAlignment`, the `previous` set of already-placed members). -/
structure CBAcc where
  minSize : Nat := 0
  minAlignment : Nat := 0
  previous : List Nat := []

/-- Lines 288–293: fold an equivalence-block aggregate into the block's
minimum size/alignment accounting (`key` is the aggregate's base whose
current offset is read). -/
def foldExtent (st : PassState) (acc : CBAcc) (key : Nat)
    (info : SizeAndAlignment) : CBAcc :=
  { acc with
    minSize := max acc.minSize (max st.offset (addW ((st.symtab key).offset) info.size)),
    minAlignment := max acc.minAlignment info.alignment }

/-- The no-dependency branch of `DoCommonBlock`'s loop body (lines
251–257 plus the aggregate fold): if the member is itself an
equivalence-block base, widen its aggregate to its own size and fold the
aggregate extent into the block accounting. -/
def doCommonBlockEq (st : PassState) (acc : CBAcc) (sym : Nat) :
    PassState × CBAcc :=
  match lookupA st.equivalenceBlock sym with
  | none => (st, acc)
  | some info =>
    let info := doEquivalenceBlockBase (st.symtab sym) info
    let st := { st with equivalenceBlock := updateA st.equivalenceBlock sym info }
    (st, foldExtent st acc sym info)

/-- The dependency branch of `DoCommonBlock`'s loop body (lines 258–293):
consistency check inside the same block, the cross-block error, the
backward-extension error, or adoption of the base into this block
followed by the aggregate fold. -/
def doCommonBlockDep (_cfg : Config) (blockId : Nat) (st : PassState)
    (acc : CBAcc) (sym : Nat) (dep : SymbolAndOffset) (errorSite : Nat) :
    PassState × CBAcc :=
  let base := dep.symbol
  match (st.symtab base).commonBlock with
  | some baseBlock =>
    if baseBlock = blockId then
      if base ∉ acc.previous ∨
          (st.symtab base).offset ≠ subW (st.symtab sym).offset dep.offset then
        ({ st with diags := st.diags ++ [.equivElsewhere errorSite sym base blockId] },
         acc)
      else (st, acc)
    else
      ({ st with diags :=
           st.diags ++ [.equivCrossBlock errorSite sym blockId base baseBlock] },
       acc)
  | none =>
    if dep.offset > (st.symtab sym).offset then
      ({ st with diags := st.diags ++ [.backwardExtend errorSite sym blockId base] },
       acc)
    else
      let eq := lookupA st.equivalenceBlock base
      let st := setSym st base (fun sd =>
        { sd with commonBlock := some blockId,
                  offset := subW (st.symtab sym).offset dep.offset })
      let acc := { acc with previous := acc.previous ++ [base] }
      match eq with
      | none => (st, acc)
      | some info => (st, foldExtent st acc base info)

/-- One member of `DoCommonBlock`'s loop: place the member (warning on
padding), record it as previous, then dispatch on whether it carries a
dependency edge. -/
def doCommonBlockStep (cfg : Config) (blockId : Nat)
    (stAcc : PassState × CBAcc) (sym : Nat) : PassState × CBAcc :=
  let st := stAcc.1
  let acc := stAcc.2
  let errorSite := if (st.blocks blockId).nameEmpty then sym else blockId
  let pr := doSymbol cfg st sym none
  let st := pr.1
  let st := if pr.2 ≠ 0 then
      { st with diags := st.diags ++ [.commonBlockPadding blockId pr.2 sym] }
    else st
  let acc := { acc with previous := acc.previous ++ [sym] }
  match lookupA st.dependents sym with
  | none => doCommonBlockEq st acc sym
  | some dep => doCommonBlockDep cfg blockId st acc sym dep errorSite

/-- Embedding of `ComputeOffsetsHelper::DoCommonBlock`: reset the cursor
and alignment, lay the members out in declaration order, then finalize the
block's size (`max(minSize, offset)`) and alignment
(`max(minAlignment, alignment)`). -/
def doCommonBlock (cfg : Config) (st : PassState) (blockId : Nat) : PassState :=
  let st := { st with offset := 0, alignment := 0 }
  let p := (st.blocks blockId).members.foldl (doCommonBlockStep cfg blockId)
    (st, ⟨0, 0, []⟩)
  let st := p.1
  let bd : BlockData :=
    { st.blocks blockId with
      size := max p.2.minSize st.offset,
      alignment := max p.2.minAlignment st.alignment }
  { st with blocks := Function.update st.blocks blockId bd }

/-! ## The offset write-back onto dependents (lines 213–218) -/

/-- Write each aliased symbol's final offset
(`base.offset + dep.offset`) and propagate the base's common-block
membership. -/
def finalizeDepStep (st : PassState) (e : Nat × SymbolAndOffset) : PassState :=
  let st := setSym st e.1 (fun sd =>
    { sd with offset := addW ((st.symtab e.2.symbol).offset) e.2.offset })
  match (st.symtab e.2.symbol).commonBlock with
  | some b => setSym st e.1 (fun sd => { sd with commonBlock := some b })
  | none => st

/-- The write-back loop over the dependency map. -/
def finalizeDeps (st : PassState) : PassState :=
  st.dependents.foldl finalizeDepStep st

/-! ## Per-scope data and `Compute` -/

/-- The per-scope inputs and the scope's own mutable size/alignment. -/
structure ScopeData where
  hasSymbol : Bool := false
  isDerivedTypeWithKindParameter : Bool := false
  isBlockConstruct : Bool := false
  symbols : List Nat := []
  equivalenceSets : List (List EqObj) := []
  commonBlocks : List Nat := []
  size : Nat := 0
  alignment : Option Nat := none
deriving DecidableEq, Repr

/-- The first half of `Compute`'s per-scope body (lines 147–201): build
the dependency map from the equivalence sets, resolve it and build the
aggregates, place equivalence-block bases, place remaining symbols.  The
result is the pass state just before the scope size is rounded up. -/
def computeOnePre (cfg : Config) (scope : ScopeData)
    (symtab : Nat → SymbolData) (blocks : Nat → BlockData) : PassState :=
  let st : PassState := { symtab := symtab, blocks := blocks, offset := 0,
                          alignment := 1 }
  let st := scope.equivalenceSets.foldl (doEquivalenceSet cfg) st
  let st := resolvePass cfg st
  let st := placeEqBlocks cfg st
  scope.symbols.foldl (placeSymbolStep cfg) st

/-- The body of `Compute` once the guards have passed (lines 147–218):
the pre-rounding phases, then round the scope size up to the scope
alignment, lay out COMMON blocks (unless the scope is a BLOCK construct),
and write back aliased offsets. -/
def computeOne (cfg : Config) (scope : ScopeData) (symtab : Nat → SymbolData)
    (blocks : Nat → BlockData) :
    ScopeData × ((Nat → SymbolData) × (Nat → BlockData) × List Diag) :=
  let st := computeOnePre cfg scope symtab blocks
  let finalOffset := align cfg.maxAlignment st.offset st.alignment
  let scope' := { scope with size := finalOffset, alignment := some st.alignment }
  let st := { st with offset := finalOffset }
  let st := if scope.isBlockConstruct then st
    else scope.commonBlocks.foldl (doCommonBlock cfg) st
  let st := finalizeDeps st
  (scope', st.symtab, st.blocks, st.diags)

/-- A scope: its own data plus child scopes. -/
inductive Scope where
  | node (own : ScopeData) (children : List Scope)

/-- The scope's own data. -/
def Scope.own : Scope → ScopeData
  | .node o _ => o

/-- The scope's children. -/
def Scope.children : Scope → List Scope
  | .node _ c => c

mutual

/-- Embedding of `ComputeOffsetsHelper::Compute` /
`ComputeOffsets(context, scope)`: recurse into every child scope first
(each with a fresh helper), then return without further work if the scope
is a kind-parameterized derived type awaiting instantiation or already
has an alignment recorded; otherwise set the in-progress sentinel
(alignment 0) and run the per-scope body. -/
def compute (cfg : Config) : Scope → (Nat → SymbolData) → (Nat → BlockData) →
    Scope × ((Nat → SymbolData) × (Nat → BlockData) × List Diag)
  | .node own children, symtab, blocks =>
    let r := computeList cfg children symtab blocks
    let children' := r.1
    let symtab' := r.2.1
    let blocks' := r.2.2.1
    let ds := r.2.2.2
    if own.hasSymbol && own.isDerivedTypeWithKindParameter then
      (.node own children', symtab', blocks', ds)
    else if own.alignment.isSome then
      (.node own children', symtab', blocks', ds)
    else
      let own0 := { own with alignment := some 0 }
      let r2 := computeOne cfg own0 symtab' blocks'
      (.node r2.1 children', r2.2.1, r2.2.2.1, ds ++ r2.2.2.2)

/-- Child-scope recursion of `Compute` (each child gets a fresh helper). -/
def computeList (cfg : Config) : List Scope → (Nat → SymbolData) →
    (Nat → BlockData) →
    List Scope × ((Nat → SymbolData) × (Nat → BlockData) × List Diag)
  | [], symtab, blocks => ([], symtab, blocks, [])
  | c :: cs, symtab, blocks =>
    let r := compute cfg c symtab blocks
    let r2 := computeList cfg cs r.2.1 r.2.2.1
    (r.1 :: r2.1, r2.2.1, r2.2.2.1, r.2.2.2 ++ r2.2.2.2)

end

mutual

/-- A scope tree in which every node either has an alignment recorded or
is guarded as a kind-parameterized derived type: the state of the tree
after one full `Compute` pass. -/
def ScopeProcessed : Scope → Prop
  | .node own children =>
    (own.alignment.isSome ∨
     (own.hasSymbol = true ∧ own.isDerivedTypeWithKindParameter = true)) ∧
    ScopeListProcessed children

/-- `ScopeProcessed` for each scope of a list. -/
def ScopeListProcessed : List Scope → Prop
  | [] => True
  | c :: cs => ScopeProcessed c ∧ ScopeListProcessed cs

end

/-! ## Order independence of disjoint equivalence sets

Helper definitions used by the amended C9 statement: the recording loop
of `DoEquivalenceSet` decomposed into the dependency-map insertions and
the conflict diagnostics it performs, plus the disjointness and
conflict-freedom side conditions. -/

/-- The locally computed symbol/offset pairs of an equivalence set's
members: what the first loop of `DoEquivalenceSet` produces when none of
the member symbols has a dependency edge yet. -/
def localObjects (cfg : Config) (tbl : Nat → SymbolData) (set : List EqObj) :
    List SymbolAndOffset :=
  set.map (fun o => ⟨o.symbol, computeOffset cfg tbl o, o⟩)

/-- The conflict diagnostics the recording loop of `DoEquivalenceSet`
appends, for a given representative and resolved-object list. -/
def edgeDiags (cfg : Config) (base : SymbolAndOffset) :
    List SymbolAndOffset → List Diag
  | [] => []
  | r :: rest =>
    if r.symbol = base.symbol then
      if r.offset ≠ base.offset then
        conflictDiag cfg base r :: edgeDiags cfg base rest
      else edgeDiags cfg base rest
    else edgeDiags cfg base rest

/-- The dependency-map insertions the recording loop of
`DoEquivalenceSet` performs, for a given representative and
resolved-object list. -/
def edgeInserts (base : SymbolAndOffset) :
    List (Nat × SymbolAndOffset) → List SymbolAndOffset →
    List (Nat × SymbolAndOffset)
  | m, [] => m
  | m, r :: rest =>
    if r.symbol = base.symbol then edgeInserts base m rest
    else edgeInserts base
      (emplaceA m r.symbol ⟨base.symbol, subW base.offset r.offset, r.object⟩)
      rest

/-- An equivalence set that raises no conflict diagnostic against its own
representative (under the given symbol table, with no prior edges). -/
abbrev SetConflictFree (cfg : Config) (tbl : Nat → SymbolData)
    (set : List EqObj) : Prop :=
  match chooseRep (localObjects cfg tbl set) with
  | none => True
  | some (_, base) => edgeDiags cfg base (localObjects cfg tbl set) = []

/-- Two equivalence sets with no symbol in common. -/
abbrev SetsDisjoint (A B : List EqObj) : Prop :=
  ∀ oa ∈ A, ∀ ob ∈ B, oa.symbol ≠ ob.symbol

/-! ## Specification-side definitions used for comparison -/

/-- Modelled from the spec: the flat element index of an array-element
reference, "row-major semantics anchored at each dimension's declared
lower bound": the sum over dimensions of
`(subscript[i] − lowerBound[i])` times the product of the extents of all
lower dimensions. -/
def flatIndexSpec (subs lb ub : List Int) : Nat :=
  ∑ i ∈ Finset.range subs.length,
    (subs.getD i 0 - lb.getD i 0).toNat *
      ∏ j ∈ Finset.range i, (ub.getD j 0 - lb.getD j 0 + 1).toNat

/-- Termination of `Resolve` on a dependency map: from every starting
dependency, the fueled resolution succeeds with fuel one more than the
map's size (the fuel the embedding always supplies). -/
def Terminates (m : List (Nat × SymbolAndOffset)) : Prop :=
  ∀ dep : SymbolAndOffset, (resolveDep m (m.length + 1) dep).isSome

/-- Well-formedness of one alignment value: a power of two no larger than
the target's maximum alignment. -/
def AlignOK (cfg : Config) (a : Nat) : Prop :=
  (∃ k, a = 2 ^ k) ∧ a ≤ cfg.maxAlignment

/-- Well-formedness of the target description and the external oracles:
every alignment they can produce is a power of two bounded by the
target's maximum alignment, itself a power of two `2^j` with `j ≤ 63`. -/
def OracleWF (cfg : Config) : Prop :=
  (∃ j, cfg.maxAlignment = 2 ^ j ∧ j ≤ 63) ∧
  (∀ sym, AlignOK cfg (cfg.getAlign sym)) ∧
  AlignOK cfg cfg.descriptorAlignment ∧
  AlignOK cfg cfg.procedurePointerAlignment ∧
  (∀ sym a, cfg.specialAlign sym = some a → AlignOK cfg a)

/-- Modelled from the spec: the substring displacement of an equivalence
object, `(substringStart − 1) × characterKindWidth`, using the intrinsic
character kind (default kind when the type is not inspectable). -/
def substringTermSpec (cfg : Config) (tbl : Nat → SymbolData) (o : EqObj) : Nat :=
  match o.substringStart with
  | none => 0
  | some s => ((tbl o.symbol).charKind.getD cfg.defaultCharKind) * (s - 1).toNat

/-! ## Concrete instances used by counterexamples and witnesses -/

/-- A configuration with 4-byte scalars everywhere (8-byte for symbol 4),
target maximum alignment 8. -/
def cfgEx : Config :=
  { maxAlignment := 8,
    measureSize := fun n => if n = 4 then some 8 else if n ≤ 5 then some 4 else none,
    measureElemSize := fun n => if n = 4 then some 8 else if n ≤ 5 then some 4 else none,
    getAlign := fun n => if n = 4 then 8 else 4 }

/-- Five plain object symbols (ids 1..5), no COMMON membership. -/
def tblEx : Nat → SymbolData := fun n =>
  if n ≤ 5 then { klass := .object } else { klass := .other }

/-- An initial pass state over `tblEx`. -/
def stEx : PassState := { symtab := tblEx, blocks := fun _ => ({} : BlockData) }

/-- `EQUIVALENCE (s3, s4)`. -/
def setS1 : List EqObj := [{ symbol := 3 }, { symbol := 4 }]

/-- `EQUIVALENCE (s3, s5)`. -/
def setS2 : List EqObj := [{ symbol := 3 }, { symbol := 5 }]

/-- `EQUIVALENCE (s1, s2)`. -/
def setS3 : List EqObj := [{ symbol := 1 }, { symbol := 2 }]

/-- The C9 scope with equivalence sets in order `S1, S2, S3`. -/
def scope9a : ScopeData := { symbols := [1, 2, 3, 4, 5], equivalenceSets := [setS1, setS2, setS3] }

/-- The C9 scope with the first two equivalence sets swapped. -/
def scope9b : ScopeData := { symbols := [1, 2, 3, 4, 5], equivalenceSets := [setS2, setS1, setS3] }

/-- Result of processing `scope9a`. -/
def run9a := computeOne cfgEx scope9a tblEx (fun _ => ({} : BlockData))

/-- Result of processing `scope9b`. -/
def run9b := computeOne cfgEx scope9b tblEx (fun _ => ({} : BlockData))

/-- The C1 equivalence set: `EQUIVALENCE (s1, s2)`. -/
def setC1w : List EqObj := [{ symbol := 1 }, { symbol := 2 }]

/-- The representative chosen for `setC1w` (the last-seen of the two
equal-offset objects). -/
def baseC1w : SymbolAndOffset := { symbol := 2, offset := 0, object := { symbol := 2 } }

/-- C1 tie scenario: `EQUIVALENCE (s1, s2)`, both resolved offsets 0. -/
def run1 := doEquivalenceSet cfgEx stEx setC1w

/-- Symbol table for the C2 scenario: 1-based arrays of ten elements. -/
def tblC2 : Nat → SymbolData := fun _ =>
  ({ klass := .object, shapeLb := [1], shapeUb := [10] } : SymbolData)

/-- An initial pass state over `tblC2`. -/
def stC2 : PassState := { symtab := tblC2, blocks := fun _ => ({} : BlockData) }

/-- C2 scenario: `EQUIVALENCE (s1(1), s1(2), s2(3))` — the first two
objects resolve to the same symbol 1 at offsets 0 and 4, the
representative is `s2(3)` at offset 8. -/
def run2 := doEquivalenceSet cfgEx stC2
  [{ symbol := 1, subscripts := [1] }, { symbol := 1, subscripts := [2] },
   { symbol := 2, subscripts := [3] }]

/-- The C2 witness equivalence set: `EQUIVALENCE (s1(1), s1(2))`, a
conflict in which the shared symbol *is* the representative's. -/
def setC2w : List EqObj :=
  [{ symbol := 1, subscripts := [1] }, { symbol := 1, subscripts := [2] }]

/-- The representative chosen for `setC2w`: `s1(2)` at offset 4. -/
def baseC2w : SymbolAndOffset :=
  { symbol := 1, offset := 4, object := { symbol := 1, subscripts := [2] } }

/-- The conflicting resolved object of `setC2w`: `s1(1)` at offset 0. -/
def rC2w : SymbolAndOffset :=
  { symbol := 1, offset := 0, object := { symbol := 1, subscripts := [1] } }

/-- Symbol table for the C5 scenario: symbol 1 a 4-byte object, symbol 2
an 8-byte object, both declared in COMMON block 10. -/
def tblC5 : Nat → SymbolData := fun n =>
  if n = 1 ∨ n = 2 then { klass := .object, commonBlock := some 10 }
  else { klass := .other }

/-- Common-block table for the C5 scenario: block 10 with members 1, 2. -/
def blocksC5 : Nat → BlockData := fun n =>
  if n = 10 then { members := [1, 2] } else ({} : BlockData)

/-- Configuration for the C5 scenario: A 4-byte/4-aligned, B
8-byte/8-aligned, target maximum alignment 8. -/
def cfgC5 : Config :=
  { maxAlignment := 8,
    measureSize := fun n => if n = 1 then some 4 else if n = 2 then some 8 else none,
    getAlign := fun n => if n = 1 then 4 else 8 }

/-- The C5 scope: two symbols, one COMMON block. -/
def scopeC5 : ScopeData := { symbols := [1, 2], commonBlocks := [10] }

/-- Result of processing the C5 scope. -/
def runC5 := computeOne cfgC5 scopeC5 tblC5 blocksC5

/-- Symbol table for the C3 witness: a 1-based array of ten 4-byte
elements with no inspectable intrinsic character kind. -/
def tblC3w : Nat → SymbolData := fun _ =>
  ({ klass := .object, shapeLb := [1], shapeUb := [10] } : SymbolData)

/-- Configuration for the C3 witness: element size 4, default character
kind 1. -/
def cfgC3w : Config :=
  { maxAlignment := 8, defaultCharKind := 1,
    measureElemSize := fun _ => some 4 }

/-- The C3 witness equivalence object: `A(3)` with substring start 3. -/
def objC3w : EqObj := { symbol := 1, subscripts := [3], substringStart := some 3 }

/-- Symbol table for the C4 witness: member 2 already placed at offset 8
inside COMMON block 10; base 3 not yet in any block. -/
def tblC4w : Nat → SymbolData := fun n =>
  if n = 2 then { klass := .object, offset := 8, size := 4, commonBlock := some 10 }
  else { klass := .object }

/-- Pass state for the C4 witness: block cursor at 12, with an
equivalence aggregate of size 12 alignment 4 based at symbol 3. -/
def stC4w : PassState :=
  { symtab := tblC4w, blocks := fun _ => ({} : BlockData), offset := 12,
    equivalenceBlock := [(3, { size := 12, alignment := 4 })] }

/-- Accumulator for the C4 witness: member 2 already recorded. -/
def accC4w : CBAcc := { previous := [2] }

/-- Dependency edge for the C4 witness: member 2 aliases base 3 at 4. -/
def depC4w : SymbolAndOffset := { symbol := 3, offset := 4, object := { symbol := 3 } }

/-- The child scope of the C7 counterexample: one placeable symbol, not
yet processed (no alignment recorded). -/
def scope7child : ScopeData := { symbols := [1] }

/-- The C7 counterexample scope: its own alignment is already recorded
(`some 0`), but its child is unprocessed. -/
def scope7 : Scope := .node { alignment := some 0 } [.node scope7child []]

/-- Result of computing the C7 counterexample scope. -/
def run7 := compute cfgEx scope7 tblEx (fun _ => ({} : BlockData))

/-- A bare scope-data record for the C9 order-independence witness; its
equivalence sets are supplied by the theorem instance. -/
def sdC9 : ScopeData := { symbols := [1, 2, 3, 4, 5] }

/-! # Theorems settling the claims -/

/-! ## Arithmetic helper lemmas -/

theorem W_pos : 0 < W := by decide

theorem addW_eq (a b : Nat) (h : a + b < W) : addW a b = a + b :=
  Nat.mod_eq_of_lt h

theorem mulW_eq (a b : Nat) (h : a * b < W) : mulW a b = a * b :=
  Nat.mod_eq_of_lt h

theorem subW_eq (a b : Nat) (hb : b ≤ a) (ha : a < W) : subW a b = a - b := by
  unfold subW
  have hbW : b < W := lt_of_le_of_lt hb ha
  rw [Nat.mod_eq_of_lt hbW]
  rcases Nat.eq_zero_or_pos b with hb0 | hb0
  · subst hb0
    simp [Nat.add_sub_cancel, Nat.mod_eq_of_lt ha]
  · have : a + (W - b) = (a - b) + W := by omega
    rw [this, Nat.add_mod_right, Nat.mod_eq_of_lt (by omega)]

theorem toU64_ofNat (n : Nat) (h : n < W) : toU64 (n : Int) = n := by
  unfold toU64
  rw [Int.emod_eq_of_lt (by positivity) (by exact_mod_cast h)]
  simp

/-! ### The masking identity behind `Align` -/

theorem two_pow_sub_two_pow (k : Nat) (hk : k ≤ 64) :
    W - 2 ^ k = 2 ^ k * (2 ^ (64 - k) - 1) := by
  have h : (2 : Nat) ^ 64 = 2 ^ k * 2 ^ (64 - k) := by
    rw [← pow_add]
    congr 1
    omega
  have h1 : (1 : Nat) ≤ 2 ^ (64 - k) := Nat.one_le_two_pow
  unfold W
  rw [h, Nat.mul_sub]
  simp

/-- Key identity: masking a 64-bit value with `2^64 - 2^k` clears its low
`k` bits, i.e. rounds it down to a multiple of `2^k`. -/
theorem land_mask_eq (y k : Nat) (hy : y < W) (hk : k ≤ 64) :
    y &&& (W - 2 ^ k) = y / 2 ^ k * 2 ^ k := by
  have hmask : W - 2 ^ k = (2 ^ (64 - k) - 1) <<< k := by
    rw [two_pow_sub_two_pow k hk, Nat.shiftLeft_eq, Nat.mul_comm]
  have hrhs : y / 2 ^ k * 2 ^ k = (y >>> k) <<< k := by
    rw [Nat.shiftLeft_eq, Nat.shiftRight_eq_div_pow]
  rw [hmask, hrhs]
  apply Nat.eq_of_testBit_eq
  intro i
  rw [Nat.testBit_and, Nat.testBit_shiftLeft, Nat.testBit_shiftLeft,
    Nat.testBit_shiftRight, Nat.testBit_two_pow_sub_one]
  have hik : k + (i - k) = i ∨ ¬ k ≤ i := by omega
  by_cases hki : k ≤ i
  · have hik : k + (i - k) = i := by omega
    rw [hik]
    by_cases hi64 : i < 64
    · have : i - k < 64 - k := by omega
      simp [hki, this]
    · have h1 : ¬ (i - k < 64 - k) := by omega
      have h2 : y.testBit i = false := by
        apply Nat.testBit_lt_two_pow
        calc y < 2 ^ 64 := hy
        _ ≤ 2 ^ i := Nat.pow_le_pow_right (by omega) (by omega)
      simp [h1, h2]
  · simp [hki]

/-- Evaluation of `align` under the conditions in which flang uses it:
the clamped alignment is a power of two `2^k` (`k ≤ 63`) and
`x + 2^k` does not overflow.  The result is exactly the round-up of `x`
to a multiple of the clamped alignment. -/
theorem align_eq_roundUp (maxAlignment x a k : Nat)
    (hm : min a maxAlignment = 2 ^ k) (hk : k ≤ 63)
    (hx : x + 2 ^ k ≤ W) :
    align maxAlignment x a = roundUpSpec x (2 ^ k) := by
  have hmpos : 0 < 2 ^ k := Nat.pos_pow_of_pos k (by omega)
  have hmW : 2 ^ k < W := by
    unfold W
    exact Nat.pow_lt_pow_right (by omega) (by omega)
  unfold align
  rw [hm]
  have hy : subW (addW x (2 ^ k)) 1 = x + 2 ^ k - 1 := by
    rcases Nat.lt_or_ge (x + 2 ^ k) W with hlt | hge
    · rw [addW_eq _ _ hlt]
      exact subW_eq _ _ (by omega) hlt
    · have hxw : x + 2 ^ k = W := le_antisymm hx hge
      unfold addW subW
      rw [hxw, Nat.mod_self]
      have h1 : (1 : Nat) % W = 1 := Nat.mod_eq_of_lt (by decide)
      rw [h1, Nat.zero_add, Nat.mod_eq_of_lt (by omega)]
  have hneg : negW (2 ^ k) = W - 2 ^ k := by
    unfold negW
    rw [Nat.mod_eq_of_lt hmW, Nat.mod_eq_of_lt (by omega)]
  rw [hy, hneg, land_mask_eq _ k (by omega) (by omega)]
  rfl


/-! ## C5: the `COMMON /C/ A, B` layout scenario -/

/-- C5: for a COMMON block with members A (4-byte integer, alignment 4,
symbol 1) then B (8-byte real, alignment 8, symbol 2), neither
equivalenced, target maximum alignment 8: A is placed at offset 0 with
size 4, a warning reporting 4 bytes of padding before B is emitted, B is
placed at offset 8 with size 8, and the block's final size is 16 with
final alignment 8. -/
theorem C5_common_block_scenario :
    (runC5.2.1 1).offset = 0 ∧ (runC5.2.1 1).size = 4 ∧
    (runC5.2.1 2).offset = 8 ∧ (runC5.2.1 2).size = 8 ∧
    runC5.2.2.2 = [Diag.commonBlockPadding 10 4 2] ∧
    (runC5.2.2.1 10).size = 16 ∧ (runC5.2.2.1 10).alignment = 8 := by
  decide

/-! ## C6: the alignment policy -/

/-- C6 counterexample: the claim quantifies over *every* alignment `a`,
but the bit trick `(x + a - 1) & -a` only rounds up for power-of-two
alignments: at `x = 1`, `a = 3`, `targetMaxAlignment = 8`, the code
returns 1, which is neither `roundUp(1, min(3, 8)) = 3` nor a multiple of
`min(3, 8) = 3`. -/
theorem C6_counterexample :
    align 8 1 3 = 1 ∧ roundUpSpec 1 (min 3 8) = 3 ∧
    align 8 1 3 ≠ roundUpSpec 1 (min 3 8) ∧
    ¬ (min 3 8 ∣ align 8 1 3) := by
  decide

/-- C6 (amended): for every offset `x` and alignment `a` whose clamp
`min(a, targetMaxAlignment)` is a power of two `2^k` (the only alignments
the compiler produces), with `x + 2^k` not overflowing `size_t`:
`Align(x, a)` equals `x` rounded up to a multiple of the clamped
alignment, is idempotent, is `≥ x`, is a multiple of the clamped
alignment, and the effective alignment never exceeds the target's
maximum. -/
theorem C6_align_properties (maxAlignment x a k : Nat)
    (hm : min a maxAlignment = 2 ^ k) (hk : k ≤ 63) (hx : x + 2 ^ k ≤ W) :
    align maxAlignment x a = roundUpSpec x (min a maxAlignment) ∧
    align maxAlignment (align maxAlignment x a) a = align maxAlignment x a ∧
    x ≤ align maxAlignment x a ∧
    (min a maxAlignment) ∣ align maxAlignment x a ∧
    min a maxAlignment ≤ maxAlignment := by
  have hmpos : 0 < 2 ^ k := Nat.pos_pow_of_pos k (by omega)
  have h1 : align maxAlignment x a = roundUpSpec x (2 ^ k) :=
    align_eq_roundUp maxAlignment x a k hm hk hx
  set m := 2 ^ k with hm2
  set q := (x + m - 1) / m with hq
  have hdm : m * q + (x + m - 1) % m = x + m - 1 := Nat.div_add_mod _ m
  have hmod : (x + m - 1) % m < m := Nat.mod_lt _ hmpos
  have hqm : q * m = (x + m - 1) - (x + m - 1) % m := by
    rw [Nat.mul_comm]
    omega
  have hge : x ≤ roundUpSpec x m := by
    unfold roundUpSpec
    rw [← hq, hqm]
    omega
  have hdvdW : m ∣ W := pow_dvd_pow 2 (by omega)
  have hlt : m * q < W := by
    rw [Nat.mul_comm, hqm]
    have : x + m - 1 < W := by omega
    omega
  have hqltW : q < W / m := (Nat.lt_div_iff_mul_lt hdvdW q).mpr hlt
  have hbound : q * m + m ≤ W := by
    have h5 : (q + 1) * m ≤ W / m * m := Nat.mul_le_mul_right m hqltW
    rw [Nat.div_mul_cancel hdvdW] at h5
    have h6 : (q + 1) * m = q * m + m := by ring
    omega
  have h4 : roundUpSpec x m = q * m := by
    unfold roundUpSpec
    rw [← hq]
  have hidem : align maxAlignment (roundUpSpec x m) a = roundUpSpec x m := by
    have h2 : align maxAlignment (q * m) a = roundUpSpec (q * m) (2 ^ k) :=
      align_eq_roundUp maxAlignment (q * m) a k hm hk (by rw [← hm2]; omega)
    have h3 : roundUpSpec (q * m) m = q * m := by
      unfold roundUpSpec
      have h7 : q * m + m - 1 = m - 1 + m * q := by
        rw [Nat.mul_comm]
        omega
      rw [h7, Nat.add_mul_div_left _ _ hmpos,
        Nat.div_eq_of_lt (by omega), Nat.zero_add, Nat.mul_comm]
    rw [h4, h2, ← hm2, h3]
  refine ⟨by rw [hm]; exact h1, ?_, ?_, ?_, Nat.min_le_right a maxAlignment⟩
  · rw [h1, hidem]
  · rw [h1]
    exact hge
  · rw [h1, hm, h4]
    exact ⟨q, Nat.mul_comm q m⟩

/-- Witness for `C6_align_properties` at `maxAlignment = 8`, `x = 13`,
`a = 8`, `k = 3`. -/
theorem C6_align_properties_witness :
    min 8 8 = 2 ^ 3 ∧ 3 ≤ 63 ∧ 13 + 2 ^ 3 ≤ W ∧
    (align 8 13 8 = roundUpSpec 13 (min 8 8) ∧
     align 8 (align 8 13 8) 8 = align 8 13 8 ∧
     13 ≤ align 8 13 8 ∧
     (min 8 8 ∣ align 8 13 8) ∧
     min 8 8 ≤ 8) :=
  ⟨by decide, by decide, by decide,
   C6_align_properties 8 13 8 3 (by decide) (by decide) (by decide)⟩

/-! ## C1, C2, C9: counterexamples from `DoEquivalenceSet` -/

/-- C1 counterexample: in the set `EQUIVALENCE (s1, s2)` both objects
resolve to offset 0, so the maximum is attained first by symbol 1; the
claim ("ties broken by keeping the first-seen maximal object") prescribes
symbol 1 as representative and an edge recording symbol 2 as aliasing
symbol 1 — but the code's `>=` tie-break selects the later-seen symbol 2,
recording the edge for symbol 1 instead. -/
theorem C1_counterexample :
    computeOffset cfgEx tblEx { symbol := 1 } = 0 ∧
    computeOffset cfgEx tblEx { symbol := 2 } = 0 ∧
    lookupA run1.dependents 2 = none ∧
    lookupA run1.dependents 1 =
      some { symbol := 2, offset := 0, object := { symbol := 1 } } := by
  decide

/-- C2 counterexample: in the set `EQUIVALENCE (s1(1), s1(2), s2(3))` the
first two member objects resolve to the same symbol 1 at the two
different offsets 0 and 4 (the representative is `s2(3)` at offset 8),
yet no error is reported — the code only compares objects against the
representative's resolved symbol — and a dependency edge for symbol 1 is
silently recorded from the first object only. -/
theorem C2_counterexample :
    computeOffset cfgEx tblC2 { symbol := 1, subscripts := [1] } = 0 ∧
    computeOffset cfgEx tblC2 { symbol := 1, subscripts := [2] } = 4 ∧
    run2.diags = [] ∧
    lookupA run2.dependents 1 =
      some { symbol := 2, offset := 8,
             object := { symbol := 1, subscripts := [1] } } := by
  decide

/-- C9 counterexample: `scope9b` differs from `scope9a` only by swapping
the first two equivalence sets (`EQUIVALENCE (s3, s4)` and
`EQUIVALENCE (s3, s5)`), yet symbol 3's final offset is 4 under one order
and 8 under the other, refuting order-independence. -/
theorem C9_counterexample :
    scope9a.equivalenceSets.Perm scope9b.equivalenceSets ∧
    (run9a.2.1 3).offset = 4 ∧ (run9b.2.1 3).offset = 8 := by
  refine ⟨List.Perm.swap setS2 setS1 [setS3], ?_, ?_⟩ <;> decide

/-! ## C3: `ComputeOffset` computes element-size times the flat index -/

theorem toU64_nonneg_mod (i : Int) (h : 0 ≤ i) : toU64 i = i.toNat % W := by
  unfold toU64
  conv_lhs => rw [show i = ((i.toNat : Nat) : Int) by omega]
  norm_cast

theorem toU64_nonneg (i : Int) (h0 : 0 ≤ i) (hW : i < (W : Nat)) :
    toU64 i = i.toNat := by
  rw [toU64_nonneg_mod i h0]
  have : i.toNat < W := by omega
  exact Nat.mod_eq_of_lt this

theorem flatIndexSpec_nil (lb ub : List Int) : flatIndexSpec [] lb ub = 0 := by
  simp [flatIndexSpec]

theorem flatIndexSpec_cons (s l u : Int) (ss ls us : List Int) :
    flatIndexSpec (s :: ss) (l :: ls) (u :: us) =
      (s - l).toNat + (u - l + 1).toNat * flatIndexSpec ss ls us := by
  unfold flatIndexSpec
  rw [List.length_cons, Finset.sum_range_succ']
  have hterm : ∀ i ∈ Finset.range ss.length,
      ((s :: ss).getD (i + 1) 0 - (l :: ls).getD (i + 1) 0).toNat *
        ∏ j ∈ Finset.range (i + 1),
          ((u :: us).getD j 0 - (l :: ls).getD j 0 + 1).toNat
      = (u - l + 1).toNat * ((ss.getD i 0 - ls.getD i 0).toNat *
          ∏ j ∈ Finset.range i, (us.getD j 0 - ls.getD j 0 + 1).toNat) := by
    intro i _
    rw [Finset.prod_range_succ']
    simp only [List.getD_cons_succ, List.getD_cons_zero]
    ring
  rw [Finset.sum_congr rfl hterm, ← Finset.mul_sum]
  simp only [List.getD_cons_zero, Finset.prod_range_zero, Nat.mul_one]
  omega

theorem flatIndexSpec_tail_le (s l u : Int) (ss ls us : List Int)
    (hlu : l ≤ u) :
    flatIndexSpec ss ls us ≤ flatIndexSpec (s :: ss) (l :: ls) (u :: us) := by
  rw [flatIndexSpec_cons]
  have he : 1 ≤ (u - l + 1).toNat := by omega
  calc flatIndexSpec ss ls us = 1 * flatIndexSpec ss ls us := by ring
  _ ≤ (u - l + 1).toNat * flatIndexSpec ss ls us := Nat.mul_le_mul_right _ he
  _ ≤ _ := Nat.le_add_left _ _

/-- The linearization loop of `ComputeOffset` equals the specification's
flat element index when the subscripts lie within the declared bounds and
the index does not overflow `size_t`. -/
theorem offsetLinear_eq_flatIndex (subs lb ub : List Int)
    (hlen1 : lb.length = subs.length) (hlen2 : ub.length = subs.length)
    (hne : subs ≠ [])
    (hbounds : ∀ i < subs.length,
      lb.getD i 0 ≤ subs.getD i 0 ∧ subs.getD i 0 ≤ ub.getD i 0)
    (hW : flatIndexSpec subs lb ub < W) :
    offsetLinear subs lb ub = flatIndexSpec subs lb ub := by
  induction subs generalizing lb ub with
  | nil => exact absurd rfl hne
  | cons s ss ih =>
    match lb, ub with
    | [], _ => simp at hlen1
    | _ :: _, [] => simp at hlen2
    | l :: ls, u :: us =>
      have hb0 := hbounds 0 (by simp)
      simp only [List.getD_cons_zero] at hb0
      match ss, hlen1, hlen2 with
      | [], hlen1, hlen2 =>
        show toU64 (s - l) = flatIndexSpec [s] (l :: ls) (u :: us)
        rw [flatIndexSpec_cons, flatIndexSpec_nil, Nat.mul_zero, Nat.add_zero]
        rw [flatIndexSpec_cons, flatIndexSpec_nil, Nat.mul_zero,
          Nat.add_zero] at hW
        exact toU64_nonneg _ (by omega) (by omega)
      | s2 :: ss2, hlen1, hlen2 =>
        have hlu : l ≤ u := le_trans hb0.1 hb0.2
        have htail : flatIndexSpec (s2 :: ss2) ls us <
            flatIndexSpec (s :: s2 :: ss2) (l :: ls) (u :: us) + 1 :=
          Nat.lt_succ_of_le (flatIndexSpec_tail_le _ _ _ _ _ _ hlu)
        have hT : offsetLinear (s2 :: ss2) ls us =
            flatIndexSpec (s2 :: ss2) ls us := by
          apply ih ls us (by simpa using hlen1) (by simpa using hlen2)
            (by simp)
          · intro i hi
            have := hbounds (i + 1) (by simpa using Nat.succ_lt_succ hi)
            simpa using this
          · omega
        show addW (toU64 (s - l))
            (mulW (toU64 (u - l + 1)) (offsetLinear (s2 :: ss2) ls us)) = _
        rw [hT, flatIndexSpec_cons]
        rw [flatIndexSpec_cons] at hW
        set T := flatIndexSpec (s2 :: ss2) ls us with hTdef
        set d := (s - l).toNat with hd
        set e := (u - l + 1).toNat with he
        have hdW : d < W := by omega
        have heT : e * T < W := by omega
        have hA : toU64 (s - l) = d := toU64_nonneg _ (by omega) (by omega)
        have hB : toU64 (u - l + 1) = e % W := toU64_nonneg_mod _ (by omega)
        rw [hA, hB]
        unfold mulW
        rw [Nat.mod_mul_mod, Nat.mod_eq_of_lt heT]
        exact addW_eq d (e * T) (by omega)

/-- C3: for an equivalence object naming an array element with constant
subscripts within the declared bounds, `ComputeOffset` returns the flat
element index (last-to-first Horner linearization anchored at the declared
lower bounds) multiplied by the symbol's *element* size `es`, plus — when
a substring start is given — `(substringStart − 1)` times the character
kind's byte width (the default character kind when the symbol's type is
not directly inspectable), all under no-overflow side conditions. -/
theorem C3_computeOffset_correct (cfg : Config) (tbl : Nat → SymbolData)
    (o : EqObj) (es : Nat)
    (hk : (tbl o.symbol).klass = .object)
    (hes : cfg.measureElemSize o.symbol = some es) (hes1 : 1 ≤ es)
    (hne : o.subscripts ≠ [])
    (hlen1 : (tbl o.symbol).shapeLb.length = o.subscripts.length)
    (hlen2 : (tbl o.symbol).shapeUb.length = o.subscripts.length)
    (hbounds : ∀ i < o.subscripts.length,
      (tbl o.symbol).shapeLb.getD i 0 ≤ o.subscripts.getD i 0 ∧
      o.subscripts.getD i 0 ≤ (tbl o.symbol).shapeUb.getD i 0)
    (hsub : ∀ s ∈ o.substringStart, 1 ≤ s)
    (hW : es * flatIndexSpec o.subscripts (tbl o.symbol).shapeLb
            (tbl o.symbol).shapeUb + substringTermSpec cfg tbl o < W) :
    computeOffset cfg tbl o =
      es * flatIndexSpec o.subscripts (tbl o.symbol).shapeLb
        (tbl o.symbol).shapeUb + substringTermSpec cfg tbl o := by
  set F := flatIndexSpec o.subscripts (tbl o.symbol).shapeLb
    (tbl o.symbol).shapeUb with hF
  have hFW : F < W := by
    have : F ≤ es * F := Nat.le_mul_of_pos_left F (by omega)
    omega
  have hlin : offsetLinear o.subscripts (tbl o.symbol).shapeLb
      (tbl o.symbol).shapeUb = F :=
    offsetLinear_eq_flatIndex _ _ _ hlen1 hlen2 hne hbounds hFW
  have hElem : (getSizeAndAlignment cfg tbl o.symbol false).size = es := by
    unfold getSizeAndAlignment
    rw [hk]
    simp [hes]
  have hemp : o.subscripts.isEmpty = false := by
    cases h : o.subscripts with
    | nil => exact absurd h hne
    | cons a as => rfl
  have hmain : mulW (offsetLinear o.subscripts (tbl o.symbol).shapeLb
      (tbl o.symbol).shapeUb) es = es * F := by
    rw [hlin]
    unfold mulW
    rw [Nat.mul_comm]
    exact Nat.mod_eq_of_lt (by omega)
  unfold computeOffset
  simp only [hemp, Bool.false_eq_true, if_false, hk, hElem, hlin,
    true_or, if_true, eq_self_iff_true]
  cases hss : o.substringStart with
  | none =>
    simp only [hss, substringTermSpec] at hW ⊢
    unfold mulW
    rw [Nat.mul_comm]
    exact Nat.mod_eq_of_lt (by omega)
  | some s =>
    have hs1 : 1 ≤ s := hsub s (by simp [hss])
    simp only [hss]
    have hsubterm : substringTermSpec cfg tbl o =
        ((tbl o.symbol).charKind.getD cfg.defaultCharKind) * (s - 1).toNat := by
      unfold substringTermSpec
      rw [hss]
    set kind := (tbl o.symbol).charKind.getD cfg.defaultCharKind with hkind
    have hcast : (kind : Int) * (s - 1) = ((kind * (s - 1).toNat : Nat) : Int) := by
      have h9 : (s - 1) = ((s - 1).toNat : Int) := by omega
      conv_lhs => rw [h9]
      norm_cast
    have hFmul : mulW F es = es * F := by
      unfold mulW
      rw [Nat.mul_comm]
      exact Nat.mod_eq_of_lt (by omega)
    have hkW : kind * (s - 1).toNat < W := by
      rw [← hsubterm]
      omega
    rw [hFmul, hcast, toU64_ofNat _ hkW, hsubterm]
    rw [hsubterm] at hW
    exact addW_eq _ _ hW

/-! ## Association-list lemmas -/

theorem lookupA_nil {α : Type} (k : Nat) :
    lookupA ([] : List (Nat × α)) k = none := rfl

theorem lookupA_cons {α : Type} (p : Nat × α) (rest : List (Nat × α)) (k : Nat) :
    lookupA (p :: rest) k = if p.1 = k then some p.2 else lookupA rest k := by
  unfold lookupA
  by_cases h : p.1 = k
  · have hb : (p.1 == k) = true := beq_iff_eq.mpr h
    simp [List.find?_cons, hb, h]
  · have hb : (p.1 == k) = false := beq_eq_false_iff_ne.mpr h
    simp [List.find?_cons, hb, h]

theorem lookupA_insertSorted_self {α : Type} (m : List (Nat × α)) (k : Nat)
    (v : α) (h : lookupA m k = none) :
    lookupA (insertSorted k v m) k = some v := by
  induction m with
  | nil => simp [insertSorted, lookupA_cons]
  | cons p rest ih =>
    rw [lookupA_cons] at h
    by_cases hp : p.1 = k
    · simp [hp] at h
    · simp only [hp, if_false] at h
      unfold insertSorted
      by_cases hk : k < p.1
      · simp [hk, lookupA_cons]
      · simp [hk, lookupA_cons, hp, ih h]

theorem lookupA_insertSorted_ne {α : Type} (m : List (Nat × α)) (k k' : Nat)
    (v : α) (h : k ≠ k') :
    lookupA (insertSorted k' v m) k = lookupA m k := by
  have h' : ¬ (k' = k) := fun hh => h hh.symm
  induction m with
  | nil =>
    unfold insertSorted
    rw [lookupA_cons, if_neg h']
  | cons p rest ih =>
    unfold insertSorted
    by_cases hk : k' < p.1
    · rw [if_pos hk, lookupA_cons, if_neg h']
    · rw [if_neg hk, lookupA_cons, lookupA_cons, ih]

theorem lookupA_emplaceA_self {α : Type} (m : List (Nat × α)) (k : Nat) (v : α)
    (h : lookupA m k = none) :
    lookupA (emplaceA m k v) k = some v := by
  unfold emplaceA
  rw [h]
  simp only [Option.isSome_none, Bool.false_eq_true, if_false]
  exact lookupA_insertSorted_self m k v h

theorem lookupA_emplaceA_ne {α : Type} (m : List (Nat × α)) (k k' : Nat) (v : α)
    (h : k ≠ k') :
    lookupA (emplaceA m k' v) k = lookupA m k := by
  unfold emplaceA
  by_cases hs : (lookupA m k').isSome
  · simp [hs]
  · simp only [hs, if_false]
    exact lookupA_insertSorted_ne m k k' v h

theorem lookupA_emplaceA_of_some {α : Type} (m : List (Nat × α)) (k k' : Nat)
    (v v' : α) (h : lookupA m k = some v) :
    lookupA (emplaceA m k' v') k = some v := by
  by_cases hk : k = k'
  · subst hk
    unfold emplaceA
    simp [h]
  · rw [lookupA_emplaceA_ne m k k' v' hk]
    exact h

/-! ## `chooseRep`: the representative is the last-seen maximal object -/

theorem chooseRepGo_spec (l : List SymbolAndOffset) :
    ∀ (i : Nat) (cur : Option (Nat × SymbolAndOffset)) (j : Nat)
      (b : SymbolAndOffset),
    chooseRepGo i cur l = some (j, b) →
    (cur = some (j, b) ∧ ∀ r ∈ l, r.offset < b.offset) ∨
    (∃ t, l.get? t = some b ∧ j = i + t ∧
      (∀ p : Nat × SymbolAndOffset, cur = some p → p.2.offset ≤ b.offset) ∧
      (∀ t', t < t' → ∀ r, l.get? t' = some r → r.offset < b.offset) ∧
      (∀ r ∈ l, r.offset ≤ b.offset)) := by
  induction l with
  | nil =>
    intro i cur j b h
    exact Or.inl ⟨h, by simp⟩
  | cons r rest ih =>
    intro i cur j b h
    rcases hc : cur with _ | ⟨j0, c⟩
    · -- cur = none: r takes over
      subst hc
      replace h : chooseRepGo (i + 1) (some (i, r)) rest = some (j, b) := h
      rcases ih (i + 1) (some (i, r)) j b h with
        ⟨heq, hmax⟩ | ⟨t, hget, hj, hcurle, hafter, hall⟩
      · injection heq with h1
        cases h1
        refine Or.inr ⟨0, rfl, by omega, by simp, ?_, ?_⟩
        · intro t' ht' r' hr'
          match t', ht' with
          | t'' + 1, _ =>
            simp only [List.get?_cons_succ] at hr'
            exact hmax r' (List.get?_mem hr')
        · intro r' hr'
          rcases List.mem_cons.mp hr' with h1 | h1
          · subst h1
            exact le_refl _
          · exact le_of_lt (hmax r' h1)
      · refine Or.inr ⟨t + 1, by simpa using hget, by omega, by simp, ?_, ?_⟩
        · intro t' ht' r' hr'
          match t', ht' with
          | t'' + 1, ht' =>
            simp only [List.get?_cons_succ] at hr'
            exact hafter t'' (by omega) r' hr'
        · intro r' hr'
          rcases List.mem_cons.mp hr' with h1 | h1
          · subst h1
            exact hcurle (i, r') rfl
          · exact hall r' h1
    · -- cur = some (j0, c)
      subst hc
      by_cases hcmp : c.offset ≤ r.offset
      · replace h : chooseRepGo (i + 1) (some (i, r)) rest = some (j, b) := by
          simpa [chooseRepGo, hcmp] using h
        rcases ih (i + 1) (some (i, r)) j b h with
          ⟨heq, hmax⟩ | ⟨t, hget, hj, hcurle, hafter, hall⟩
        · injection heq with h1
          cases h1
          refine Or.inr ⟨0, rfl, by omega, ?_, ?_, ?_⟩
          · intro p hp
            injection hp with hp
            cases hp
            exact hcmp
          · intro t' ht' r' hr'
            match t', ht' with
            | t'' + 1, _ =>
              simp only [List.get?_cons_succ] at hr'
              exact hmax r' (List.get?_mem hr')
          · intro r' hr'
            rcases List.mem_cons.mp hr' with h1 | h1
            · subst h1
              exact le_refl _
            · exact le_of_lt (hmax r' h1)
        · refine Or.inr ⟨t + 1, by simpa using hget, by omega, ?_, ?_, ?_⟩
          · intro p hp
            injection hp with hp
            cases hp
            exact le_trans hcmp (hcurle (i, r) rfl)
          · intro t' ht' r' hr'
            match t', ht' with
            | t'' + 1, ht' =>
              simp only [List.get?_cons_succ] at hr'
              exact hafter t'' (by omega) r' hr'
          · intro r' hr'
            rcases List.mem_cons.mp hr' with h1 | h1
            · subst h1
              exact hcurle (i, r') rfl
            · exact hall r' h1
      · replace h : chooseRepGo (i + 1) (some (j0, c)) rest = some (j, b) := by
          simpa [chooseRepGo, hcmp] using h
        rcases ih (i + 1) (some (j0, c)) j b h with
          ⟨heq, hmax⟩ | ⟨t, hget, hj, hcurle, hafter, hall⟩
        · injection heq with h1
          cases h1
          refine Or.inl ⟨rfl, ?_⟩
          intro r' hr'
          rcases List.mem_cons.mp hr' with h1 | h1
          · subst h1
            omega
          · exact hmax r' h1
        · refine Or.inr ⟨t + 1, by simpa using hget, by omega, ?_, ?_, ?_⟩
          · intro p hp
            injection hp with hp
            cases hp
            exact hcurle (j0, c) rfl
          · intro t' ht' r' hr'
            match t', ht' with
            | t'' + 1, ht' =>
              simp only [List.get?_cons_succ] at hr'
              exact hafter t'' (by omega) r' hr'
          · intro r' hr'
            rcases List.mem_cons.mp hr' with h1 | h1
            · subst h1
              have h8 : c.offset ≤ b.offset := hcurle (j0, c) rfl
              omega
            · exact hall r' h1

/-- The chosen representative is an element of the list whose resolved
offset is maximal, and every element *after* it has a strictly smaller
offset: the `≥` tie-break keeps the *last*-seen maximal object. -/
theorem chooseRep_spec (l : List SymbolAndOffset) (j : Nat)
    (b : SymbolAndOffset) (h : chooseRep l = some (j, b)) :
    l.get? j = some b ∧ (∀ r ∈ l, r.offset ≤ b.offset) ∧
    (∀ t', j < t' → ∀ r, l.get? t' = some r → r.offset < b.offset) := by
  rcases chooseRepGo_spec l 0 none j b h with ⟨heq, _⟩ | ⟨t, hget, hj, _, hafter, hall⟩
  · exact absurd heq (by simp)
  · have : j = t := by omega
    subst this
    exact ⟨hget, hall, hafter⟩

/-- Witness for `C3_computeOffset_correct`: the spec's scenario
`REAL A(10)` with 4-byte elements and subscript `A(3)` (here with an
additional substring start of 3 and character kind 1 to exercise the
substring term): local offset `4 × 2 + 1 × 2 = 10`. -/
theorem C3_computeOffset_correct_witness :
    computeOffset cfgC3w tblC3w objC3w = 4 * flatIndexSpec [3] [1] [10] + 2 ∧
    computeOffset cfgC3w tblC3w objC3w = 10 :=
  have h := C3_computeOffset_correct cfgC3w tblC3w objC3w 4 (by decide)
    (by decide) (by decide) (by decide) (by decide) (by decide)
    (by decide) (by intro s hs; simp [objC3w] at hs; omega) (by decide)
  ⟨by simpa using h, by decide⟩

/-! ## `recordEdges`: characterization of the recording loop -/

theorem recordEdges_nil (cfg : Config) (base : SymbolAndOffset)
    (st : PassState) : recordEdges cfg base st [] = st := rfl

theorem recordEdges_cons (cfg : Config) (base : SymbolAndOffset)
    (st : PassState) (r : SymbolAndOffset) (rest : List SymbolAndOffset) :
    recordEdges cfg base st (r :: rest) =
      recordEdges cfg base (recordEdgeStep cfg base st r) rest := rfl

theorem recordEdgeStep_symtab (cfg : Config) (base : SymbolAndOffset)
    (st : PassState) (r : SymbolAndOffset) :
    (recordEdgeStep cfg base st r).symtab = st.symtab := by
  unfold recordEdgeStep
  by_cases h1 : r.symbol = base.symbol <;> by_cases h2 : r.offset ≠ base.offset <;>
    simp [h1, h2]

theorem recordEdges_symtab (cfg : Config) (base : SymbolAndOffset) :
    ∀ (l : List SymbolAndOffset) (st : PassState),
    (recordEdges cfg base st l).symtab = st.symtab := by
  intro l
  induction l with
  | nil => intro st; rfl
  | cons r rest ih =>
    intro st
    rw [recordEdges_cons, ih, recordEdgeStep_symtab]

theorem recordEdgeStep_lookup_of_some (cfg : Config) (base : SymbolAndOffset)
    (st : PassState) (r : SymbolAndOffset) (k : Nat) (v : SymbolAndOffset)
    (h : lookupA st.dependents k = some v) :
    lookupA (recordEdgeStep cfg base st r).dependents k = some v := by
  unfold recordEdgeStep
  by_cases h1 : r.symbol = base.symbol
  · by_cases h2 : r.offset ≠ base.offset <;> simp [h1, h2, h]
  · simp only [h1, if_false]
    exact lookupA_emplaceA_of_some _ _ _ _ _ h

theorem recordEdges_lookup_of_some (cfg : Config) (base : SymbolAndOffset) :
    ∀ (l : List SymbolAndOffset) (st : PassState) (k : Nat)
      (v : SymbolAndOffset),
    lookupA st.dependents k = some v →
    lookupA (recordEdges cfg base st l).dependents k = some v := by
  intro l
  induction l with
  | nil => intro st k v h; exact h
  | cons r rest ih =>
    intro st k v h
    rw [recordEdges_cons]
    exact ih _ k v (recordEdgeStep_lookup_of_some cfg base st r k v h)

theorem recordEdgeStep_lookup_base (cfg : Config) (base : SymbolAndOffset)
    (st : PassState) (r : SymbolAndOffset) :
    lookupA (recordEdgeStep cfg base st r).dependents base.symbol =
      lookupA st.dependents base.symbol := by
  unfold recordEdgeStep
  by_cases h1 : r.symbol = base.symbol
  · by_cases h2 : r.offset ≠ base.offset <;> simp [h1, h2]
  · simp only [h1, if_false]
    exact lookupA_emplaceA_ne _ _ _ _ (fun hh => h1 hh.symm)

theorem recordEdges_lookup_base (cfg : Config) (base : SymbolAndOffset) :
    ∀ (l : List SymbolAndOffset) (st : PassState),
    lookupA (recordEdges cfg base st l).dependents base.symbol =
      lookupA st.dependents base.symbol := by
  intro l
  induction l with
  | nil => intro st; rfl
  | cons r rest ih =>
    intro st
    rw [recordEdges_cons, ih, recordEdgeStep_lookup_base]

/-- An edge is recorded for the *first* object of the set that resolves to
a given non-representative symbol; its offset is the representative's
offset minus that object's. -/
theorem recordEdges_lookup_first (cfg : Config) (base : SymbolAndOffset) :
    ∀ (l : List SymbolAndOffset) (st : PassState) (k : Nat),
    k ≠ base.symbol →
    lookupA st.dependents k = none →
    ∀ r', l.find? (fun x => x.symbol == k) = some r' →
    lookupA (recordEdges cfg base st l).dependents k =
      some { symbol := base.symbol, offset := subW base.offset r'.offset,
             object := r'.object } := by
  intro l
  induction l with
  | nil =>
    intro st k _ _ r' hfind
    simp [List.find?] at hfind
  | cons r rest ih =>
    intro st k hk hnone r' hfind
    rw [List.find?_cons] at hfind
    rw [recordEdges_cons]
    by_cases hr : r.symbol = k
    · have hb : (r.symbol == k) = true := beq_iff_eq.mpr hr
      rw [hb] at hfind
      simp only [cond_true] at hfind
      injection hfind with hfind
      subst hfind
      subst hr
      have hstep : lookupA (recordEdgeStep cfg base st r).dependents r.symbol =
          some { symbol := base.symbol, offset := subW base.offset r.offset,
                 object := r.object } := by
        unfold recordEdgeStep
        simp only [hk, if_false]
        exact lookupA_emplaceA_self _ _ _ hnone
      exact recordEdges_lookup_of_some cfg base rest _ r.symbol _ hstep
    · have hb : (r.symbol == k) = false := beq_eq_false_iff_ne.mpr hr
      rw [hb] at hfind
      simp only [cond_false] at hfind
      apply ih _ k hk _ r' hfind
      unfold recordEdgeStep
      by_cases h1 : r.symbol = base.symbol
      · by_cases h2 : r.offset ≠ base.offset <;> simp [h1, h2, hnone]
      · simp only [h1, if_false]
        rw [lookupA_emplaceA_ne _ _ _ _ (fun hh => hr hh.symm)]
        exact hnone

theorem recordEdgeStep_diags (cfg : Config) (base : SymbolAndOffset)
    (st : PassState) (r : SymbolAndOffset) :
    ∃ tail, (recordEdgeStep cfg base st r).diags = st.diags ++ tail := by
  unfold recordEdgeStep
  by_cases h1 : r.symbol = base.symbol
  · by_cases h2 : r.offset ≠ base.offset
    · exact ⟨[conflictDiag cfg base r], by simp [h1, h2]⟩
    · exact ⟨[], by simp [h1, h2]⟩
  · exact ⟨[], by simp [h1]⟩

theorem recordEdges_diags (cfg : Config) (base : SymbolAndOffset) :
    ∀ (l : List SymbolAndOffset) (st : PassState),
    ∃ tail, (recordEdges cfg base st l).diags = st.diags ++ tail := by
  intro l
  induction l with
  | nil => intro st; exact ⟨[], by simp [recordEdges_nil]⟩
  | cons r rest ih =>
    intro st
    rw [recordEdges_cons]
    obtain ⟨t1, h1⟩ := recordEdgeStep_diags cfg base st r
    obtain ⟨t2, h2⟩ := ih (recordEdgeStep cfg base st r)
    exact ⟨t1 ++ t2, by rw [h2, h1, List.append_assoc]⟩

/-- Every object that resolves to the representative's symbol at a
different offset gets its conflict diagnostic reported. -/
theorem recordEdges_conflict_reported (cfg : Config) (base : SymbolAndOffset) :
    ∀ (l : List SymbolAndOffset) (st : PassState) (r : SymbolAndOffset),
    r ∈ l → r.symbol = base.symbol → r.offset ≠ base.offset →
    conflictDiag cfg base r ∈ (recordEdges cfg base st l).diags := by
  intro l
  induction l with
  | nil => intro st r hr; simp at hr
  | cons r0 rest ih =>
    intro st r hr h1 h2
    rw [recordEdges_cons]
    rcases List.mem_cons.mp hr with he | he
    · subst he
      have hstep : conflictDiag cfg base r ∈ (recordEdgeStep cfg base st r).diags := by
        unfold recordEdgeStep
        simp [h1, h2]
      obtain ⟨tail, ht⟩ := recordEdges_diags cfg base rest (recordEdgeStep cfg base st r)
      rw [ht]
      exact List.mem_append_left _ hstep
    · exact ih _ r he h1 h2

/-! ## Offsets stay below `2^64` -/

theorem addW_lt (a b : Nat) : addW a b < W := Nat.mod_lt _ W_pos

theorem mulW_lt (a b : Nat) : mulW a b < W := Nat.mod_lt _ W_pos

theorem subW_lt (a b : Nat) : subW a b < W := Nat.mod_lt _ W_pos

theorem computeOffset_lt (cfg : Config) (tbl : Nat → SymbolData) (o : EqObj) :
    computeOffset cfg tbl o < W := by
  unfold computeOffset
  cases o.substringStart with
  | none => exact mulW_lt _ _
  | some s => exact addW_lt _ _

theorem resolveDep_offset_lt (deps : List (Nat × SymbolAndOffset)) :
    ∀ (fuel : Nat) (dep r : SymbolAndOffset), dep.offset < W →
    resolveDep deps fuel dep = some r → r.offset < W := by
  intro fuel
  induction fuel with
  | zero => intro dep r _ h; simp [resolveDep] at h
  | succ n ih =>
    intro dep r hlt h
    unfold resolveDep at h
    split at h
    · injection h with h
      subst h
      exact hlt
    · split at h
      · exact absurd h (by simp)
      · injection h with h
        subst h
        exact addW_lt _ _

theorem resolveNow_offset_lt (deps : List (Nat × SymbolAndOffset))
    (dep : SymbolAndOffset) (h : dep.offset < W) :
    (resolveNow deps dep).offset < W := by
  unfold resolveNow
  cases hr : resolveDep deps (deps.length + 1) dep with
  | none => exact h
  | some r => exact resolveDep_offset_lt deps _ dep r h hr

theorem resolvedObjects_offset_lt (cfg : Config) (st : PassState)
    (set : List EqObj) :
    ∀ r ∈ resolvedObjects cfg st set, r.offset < W := by
  intro r hr
  unfold resolvedObjects at hr
  obtain ⟨o, _, ho⟩ := List.mem_map.mp hr
  subst ho
  exact resolveNow_offset_lt _ _ (computeOffset_lt cfg st.symtab o)

theorem doEquivalenceSet_eq_recordEdges (cfg : Config) (st : PassState)
    (set : List EqObj) (ri : Nat) (base : SymbolAndOffset)
    (hrep : chooseRep (resolvedObjects cfg st set) = some (ri, base)) :
    doEquivalenceSet cfg st set =
      recordEdges cfg base st (resolvedObjects cfg st set) := by
  show (match chooseRep (resolvedObjects cfg st set) with
        | none => st
        | some (_, b) => recordEdges cfg b st (resolvedObjects cfg st set)) =
      recordEdges cfg base st (resolvedObjects cfg st set)
  rw [hrep]

/-! ## C1 (amended): last-seen maximal representative, first-object edges -/

/-- C1 (amended): the chosen representative is a member object with the
maximum resolved offset, with ties broken by keeping the *last*-seen
maximal object (every later object has a strictly smaller offset); and
every member object that resolves to a different symbol than the
representative has an edge recorded for its resolved symbol — the first
object of the set resolving to that symbol determines the edge — aliasing
the representative's resolved base symbol at offset equal to
(representative's resolved offset) minus (that object's resolved offset),
a subtraction that never goes below zero.  The hypothesis `hres` says
resolution reached a non-dependent symbol for every member, which holds
for every dependency map this pass builds (see the C10 theorems). -/
theorem C1_representative_last_max (cfg : Config) (st : PassState)
    (set : List EqObj) (ri : Nat) (base : SymbolAndOffset)
    (hrep : chooseRep (resolvedObjects cfg st set) = some (ri, base))
    (hres : ∀ r ∈ resolvedObjects cfg st set,
      lookupA st.dependents r.symbol = none) :
    (resolvedObjects cfg st set).get? ri = some base ∧
    (∀ r ∈ resolvedObjects cfg st set, r.offset ≤ base.offset) ∧
    (∀ t, ri < t → ∀ r, (resolvedObjects cfg st set).get? t = some r →
      r.offset < base.offset) ∧
    (∀ r ∈ resolvedObjects cfg st set, r.symbol ≠ base.symbol →
      ∃ r', (resolvedObjects cfg st set).find?
          (fun x => x.symbol == r.symbol) = some r' ∧
        r'.symbol = r.symbol ∧ r'.offset ≤ base.offset ∧
        lookupA (doEquivalenceSet cfg st set).dependents r.symbol =
          some { symbol := base.symbol, offset := base.offset - r'.offset,
                 object := r'.object }) := by
  obtain ⟨hget, hall, hafter⟩ := chooseRep_spec _ _ _ hrep
  have hbaseW : base.offset < W :=
    resolvedObjects_offset_lt cfg st set base (List.get?_mem hget)
  refine ⟨hget, hall, hafter, ?_⟩
  intro r hr hne
  have hpred : (fun x : SymbolAndOffset => x.symbol == r.symbol) r = true :=
    beq_iff_eq.mpr rfl
  cases hfind : (resolvedObjects cfg st set).find?
      (fun x => x.symbol == r.symbol) with
  | none =>
    exact absurd hpred (by simpa using List.find?_eq_none.mp hfind r hr)
  | some r' =>
    have hr'mem : r' ∈ resolvedObjects cfg st set :=
      List.mem_of_find?_eq_some hfind
    have hr'sym : r'.symbol = r.symbol := by
      have hp := List.find?_some hfind
      exact beq_iff_eq.mp hp
    have hr'le : r'.offset ≤ base.offset := hall r' hr'mem
    refine ⟨r', rfl, hr'sym, hr'le, ?_⟩
    rw [doEquivalenceSet_eq_recordEdges cfg st set ri base hrep]
    have h := recordEdges_lookup_first cfg base (resolvedObjects cfg st set)
      st r.symbol hne (hres r hr) r' hfind
    rw [h, subW_eq _ _ hr'le hbaseW]

/-- Witness for `C1_representative_last_max` on `EQUIVALENCE (s1, s2)`:
both objects resolve to offset 0, the representative is the last-seen
symbol 2 at index 1. -/
theorem C1_representative_last_max_witness :
    chooseRep (resolvedObjects cfgEx stEx setC1w) = some (1, baseC1w) ∧
    (∀ r ∈ resolvedObjects cfgEx stEx setC1w,
      lookupA stEx.dependents r.symbol = none) ∧
    ((resolvedObjects cfgEx stEx setC1w).get? 1 = some baseC1w ∧
     (∀ r ∈ resolvedObjects cfgEx stEx setC1w, r.offset ≤ baseC1w.offset) ∧
     (∀ t, 1 < t → ∀ r, (resolvedObjects cfgEx stEx setC1w).get? t = some r →
       r.offset < baseC1w.offset) ∧
     (∀ r ∈ resolvedObjects cfgEx stEx setC1w, r.symbol ≠ baseC1w.symbol →
       ∃ r', (resolvedObjects cfgEx stEx setC1w).find?
           (fun x => x.symbol == r.symbol) = some r' ∧
         r'.symbol = r.symbol ∧ r'.offset ≤ baseC1w.offset ∧
         lookupA (doEquivalenceSet cfgEx stEx setC1w).dependents r.symbol =
           some { symbol := baseC1w.symbol,
                  offset := baseC1w.offset - r'.offset,
                  object := r'.object })) :=
  ⟨by decide, by decide,
   C1_representative_last_max cfgEx stEx setC1w 1 baseC1w (by decide) (by decide)⟩

/-! ## C2 (amended): conflicts are detected against the representative -/

/-- C2 (amended): whenever a member object resolves to the *same* symbol
as the representative at a *different* offset, the conflict diagnostic is
reported — citing both references by rendered designator text when the
designator oracle can derive both, otherwise by symbol and numeric byte
offsets — no dependency edge is recorded for that object's resolved
symbol, all previously recorded dependency edges are preserved, and no
symbol offset or size is modified (processing continues).  Conflicts
between two objects that resolve to the same *non*-representative symbol
are not detected (see the C2 counterexample). -/
theorem C2_conflict_detection (cfg : Config) (st : PassState)
    (set : List EqObj) (ri : Nat) (base : SymbolAndOffset)
    (hrep : chooseRep (resolvedObjects cfg st set) = some (ri, base))
    (r : SymbolAndOffset) (hr : r ∈ resolvedObjects cfg st set)
    (hsym : r.symbol = base.symbol) (hoff : r.offset ≠ base.offset) :
    conflictDiag cfg base r ∈ (doEquivalenceSet cfg st set).diags ∧
    ((∃ x y, cfg.offsetToDesignator r.symbol base.offset = some x ∧
             cfg.offsetToDesignator r.symbol r.offset = some y ∧
             conflictDiag cfg base r =
               .conflictDesignators base.object.source x y r.object.source) ∨
     ((cfg.offsetToDesignator r.symbol base.offset = none ∨
       cfg.offsetToDesignator r.symbol r.offset = none) ∧
      conflictDiag cfg base r =
        .conflictNumeric base.object.source r.symbol base.offset r.offset
          r.object.source)) ∧
    lookupA (doEquivalenceSet cfg st set).dependents base.symbol =
      lookupA st.dependents base.symbol ∧
    (∀ k v, lookupA st.dependents k = some v →
      lookupA (doEquivalenceSet cfg st set).dependents k = some v) ∧
    (doEquivalenceSet cfg st set).symtab = st.symtab := by
  rw [doEquivalenceSet_eq_recordEdges cfg st set ri base hrep]
  refine ⟨recordEdges_conflict_reported cfg base _ st r hr hsym hoff, ?_,
    recordEdges_lookup_base cfg base _ st,
    fun k v h => recordEdges_lookup_of_some cfg base _ st k v h,
    recordEdges_symtab cfg base _ st⟩
  unfold conflictDiag
  cases h1 : cfg.offsetToDesignator r.symbol base.offset with
  | none => exact Or.inr ⟨Or.inl rfl, rfl⟩
  | some x =>
    cases h2 : cfg.offsetToDesignator r.symbol r.offset with
    | none => exact Or.inr ⟨Or.inr rfl, rfl⟩
    | some y => exact Or.inl ⟨x, y, rfl, rfl, rfl⟩

/-- Witness for `C2_conflict_detection` on `EQUIVALENCE (s1(1), s1(2))`:
`s1(1)` resolves to the representative's symbol 1 at offset 0 while the
representative `s1(2)` sits at offset 4, so the (numeric-fallback)
conflict diagnostic is reported and nothing else changes. -/
theorem C2_conflict_detection_witness :
    chooseRep (resolvedObjects cfgEx stC2 setC2w) = some (1, baseC2w) ∧
    rC2w ∈ resolvedObjects cfgEx stC2 setC2w ∧
    rC2w.symbol = baseC2w.symbol ∧ rC2w.offset ≠ baseC2w.offset ∧
    (conflictDiag cfgEx baseC2w rC2w ∈
        (doEquivalenceSet cfgEx stC2 setC2w).diags ∧
     ((∃ x y, cfgEx.offsetToDesignator rC2w.symbol baseC2w.offset = some x ∧
              cfgEx.offsetToDesignator rC2w.symbol rC2w.offset = some y ∧
              conflictDiag cfgEx baseC2w rC2w =
                .conflictDesignators baseC2w.object.source x y
                  rC2w.object.source) ∨
      ((cfgEx.offsetToDesignator rC2w.symbol baseC2w.offset = none ∨
        cfgEx.offsetToDesignator rC2w.symbol rC2w.offset = none) ∧
       conflictDiag cfgEx baseC2w rC2w =
         .conflictNumeric baseC2w.object.source rC2w.symbol baseC2w.offset
           rC2w.offset rC2w.object.source)) ∧
     lookupA (doEquivalenceSet cfgEx stC2 setC2w).dependents baseC2w.symbol =
       lookupA stC2.dependents baseC2w.symbol ∧
     (∀ k v, lookupA stC2.dependents k = some v →
       lookupA (doEquivalenceSet cfgEx stC2 setC2w).dependents k = some v) ∧
     (doEquivalenceSet cfgEx stC2 setC2w).symtab = stC2.symtab) :=
  ⟨by decide, by decide, by decide, by decide,
   C2_conflict_detection cfgEx stC2 setC2w 1 baseC2w (by decide) rC2w
     (by decide) (by decide) (by decide)⟩

/-! ## `DoSymbol` preservation lemmas -/

theorem doSymbol_preserves (cfg : Config) (st : PassState) (sym : Nat)
    (na : Option Nat) :
    (doSymbol cfg st sym na).1.dependents = st.dependents ∧
    (doSymbol cfg st sym na).1.equivalenceBlock = st.equivalenceBlock ∧
    (doSymbol cfg st sym na).1.blocks = st.blocks ∧
    (doSymbol cfg st sym na).1.diags = st.diags := by
  unfold doSymbol
  by_cases h1 : (st.symtab sym).klass = SymClass.other
  · simp [h1]
  · by_cases h2 : (getSizeAndAlignment cfg st.symtab sym true).size = 0 <;>
      simp [h1, h2, setSym]

theorem doSymbol_symtab_ne (cfg : Config) (st : PassState) (sym : Nat)
    (na : Option Nat) (k : Nat) (hk : k ≠ sym) :
    (doSymbol cfg st sym na).1.symtab k = st.symtab k := by
  unfold doSymbol
  by_cases h1 : (st.symtab sym).klass = SymClass.other
  · simp [h1]
  · by_cases h2 : (getSizeAndAlignment cfg st.symtab sym true).size = 0
    · simp [h1, h2]
    · simp only [h1, h2, if_false, if_neg]
      simp [setSym, Function.update, hk]

/-! ## C4: adoption of an un-blocked base vs the backward-extend error -/

/-- C4: when a common-block member `sym` carries a dependency edge `dep`
to a base symbol `dep.symbol` that belongs to no common block, then —
with `(st.symtab sym).offset` the member's offset as assigned by
`DoSymbol` just before this branch runs — if `dep.offset` exceeds the
member's offset (so the base's required offset `member − dep` would be
negative) the cannot-backward-extend error is reported and the base is
not adopted (the state is otherwise untouched); otherwise the base is
adopted into this block at offset `memberOffset − dep.offset`, marked as
placed in `previous`, and the base's equivalence-aggregate extent (if
any) is folded into the block's minimum size and alignment accounting. -/
theorem C4_backward_extend_or_adopt (cfg : Config) (blockId : Nat)
    (st : PassState) (acc : CBAcc) (sym : Nat) (dep : SymbolAndOffset)
    (errorSite : Nat)
    (hB : (st.symtab dep.symbol).commonBlock = none)
    (hmW : (st.symtab sym).offset < W) :
    if dep.offset > (st.symtab sym).offset then
      (doCommonBlockDep cfg blockId st acc sym dep errorSite).1 =
        { st with diags := st.diags ++
            [Diag.backwardExtend errorSite sym blockId dep.symbol] } ∧
      (doCommonBlockDep cfg blockId st acc sym dep errorSite).2 = acc
    else
      ((doCommonBlockDep cfg blockId st acc sym dep errorSite).1.symtab
          dep.symbol).commonBlock = some blockId ∧
      ((doCommonBlockDep cfg blockId st acc sym dep errorSite).1.symtab
          dep.symbol).offset = (st.symtab sym).offset - dep.offset ∧
      (doCommonBlockDep cfg blockId st acc sym dep errorSite).2.previous =
        acc.previous ++ [dep.symbol] ∧
      (match lookupA st.equivalenceBlock dep.symbol with
       | none =>
         (doCommonBlockDep cfg blockId st acc sym dep errorSite).2.minSize =
             acc.minSize ∧
         (doCommonBlockDep cfg blockId st acc sym dep errorSite).2.minAlignment =
             acc.minAlignment
       | some info =>
         (doCommonBlockDep cfg blockId st acc sym dep errorSite).2.minSize =
             max acc.minSize (max st.offset
               (addW ((st.symtab sym).offset - dep.offset) info.size)) ∧
         (doCommonBlockDep cfg blockId st acc sym dep errorSite).2.minAlignment =
             max acc.minAlignment info.alignment) := by
  have hle : ¬ dep.offset > (st.symtab sym).offset →
      subW ((st.symtab sym).offset) dep.offset =
        (st.symtab sym).offset - dep.offset := fun h =>
    subW_eq _ _ (by omega) hmW
  have hsym : ((setSym st dep.symbol (fun sd =>
      { sd with commonBlock := some blockId,
                offset := subW (st.symtab sym).offset dep.offset })).symtab
      dep.symbol).commonBlock = some blockId ∧
      ((setSym st dep.symbol (fun sd =>
      { sd with commonBlock := some blockId,
                offset := subW (st.symtab sym).offset dep.offset })).symtab
      dep.symbol).offset = subW (st.symtab sym).offset dep.offset := by
    constructor <;> simp [setSym, Function.update]
  cases hEq : lookupA st.equivalenceBlock dep.symbol with
  | none =>
    have hstep : doCommonBlockDep cfg blockId st acc sym dep errorSite =
        if dep.offset > (st.symtab sym).offset then
          ({ st with diags := st.diags ++
              [Diag.backwardExtend errorSite sym blockId dep.symbol] }, acc)
        else
          (setSym st dep.symbol (fun sd =>
            { sd with commonBlock := some blockId,
                      offset := subW (st.symtab sym).offset dep.offset }),
           { acc with previous := acc.previous ++ [dep.symbol] }) := by
      unfold doCommonBlockDep
      simp only [hB, hEq]
    by_cases hgt : dep.offset > (st.symtab sym).offset
    · rw [if_pos hgt]
      rw [if_pos hgt] at hstep
      exact ⟨by rw [hstep], by rw [hstep]⟩
    · rw [if_neg hgt]
      rw [if_neg hgt] at hstep
      simp only [hEq]
      exact ⟨by rw [hstep]; exact hsym.1,
             by rw [hstep, hsym.2]; exact hle hgt,
             by rw [hstep], by rw [hstep], by rw [hstep]⟩
  | some info =>
    have hstep : doCommonBlockDep cfg blockId st acc sym dep errorSite =
        if dep.offset > (st.symtab sym).offset then
          ({ st with diags := st.diags ++
              [Diag.backwardExtend errorSite sym blockId dep.symbol] }, acc)
        else
          (setSym st dep.symbol (fun sd =>
            { sd with commonBlock := some blockId,
                      offset := subW (st.symtab sym).offset dep.offset }),
           foldExtent (setSym st dep.symbol (fun sd =>
              { sd with commonBlock := some blockId,
                        offset := subW (st.symtab sym).offset dep.offset }))
             { acc with previous := acc.previous ++ [dep.symbol] }
             dep.symbol info) := by
      unfold doCommonBlockDep
      simp only [hB, hEq]
    by_cases hgt : dep.offset > (st.symtab sym).offset
    · rw [if_pos hgt]
      rw [if_pos hgt] at hstep
      exact ⟨by rw [hstep], by rw [hstep]⟩
    · rw [if_neg hgt]
      rw [if_neg hgt] at hstep
      simp only [hEq]
      refine ⟨by rw [hstep]; exact hsym.1,
              by rw [hstep, hsym.2]; exact hle hgt, ?_, ?_, ?_⟩
      · rw [hstep]
        rfl
      · rw [hstep]
        show max _ (max _ _) = _
        rw [hsym.2, hle hgt]
        exact rfl
      · rw [hstep]
        rfl

/-- Witness for `C4_backward_extend_or_adopt`: member 2, placed at
offset 8 in block 10, aliases base 3 at dependency offset 4; since
`4 ≤ 8` the base is adopted at offset 4 and its aggregate (size 12,
alignment 4) is folded into the accounting. -/
theorem C4_backward_extend_or_adopt_witness :
    (stC4w.symtab depC4w.symbol).commonBlock = none ∧
    (stC4w.symtab 2).offset < W ∧
    (if depC4w.offset > (stC4w.symtab 2).offset then
      (doCommonBlockDep cfgEx 10 stC4w accC4w 2 depC4w 10).1 =
        { stC4w with diags := stC4w.diags ++
            [Diag.backwardExtend 10 2 10 depC4w.symbol] } ∧
      (doCommonBlockDep cfgEx 10 stC4w accC4w 2 depC4w 10).2 = accC4w
    else
      ((doCommonBlockDep cfgEx 10 stC4w accC4w 2 depC4w 10).1.symtab
          depC4w.symbol).commonBlock = some 10 ∧
      ((doCommonBlockDep cfgEx 10 stC4w accC4w 2 depC4w 10).1.symtab
          depC4w.symbol).offset = (stC4w.symtab 2).offset - depC4w.offset ∧
      (doCommonBlockDep cfgEx 10 stC4w accC4w 2 depC4w 10).2.previous =
        accC4w.previous ++ [depC4w.symbol] ∧
      (match lookupA stC4w.equivalenceBlock depC4w.symbol with
       | none =>
         (doCommonBlockDep cfgEx 10 stC4w accC4w 2 depC4w 10).2.minSize =
             accC4w.minSize ∧
         (doCommonBlockDep cfgEx 10 stC4w accC4w 2 depC4w 10).2.minAlignment =
             accC4w.minAlignment
       | some info =>
         (doCommonBlockDep cfgEx 10 stC4w accC4w 2 depC4w 10).2.minSize =
             max accC4w.minSize (max stC4w.offset
               (addW ((stC4w.symtab 2).offset - depC4w.offset) info.size)) ∧
         (doCommonBlockDep cfgEx 10 stC4w accC4w 2 depC4w 10).2.minAlignment =
             max accC4w.minAlignment info.alignment)) :=
  ⟨by decide, by decide,
   C4_backward_extend_or_adopt cfgEx 10 stC4w accC4w 2 depC4w 10
     (by decide) (by decide)⟩

/-! ## C8: the scope size is a multiple of the scope alignment -/

theorem foldl_preserves {β : Type} (P : PassState → Prop)
    (f : PassState → β → PassState) (h : ∀ st b, P st → P (f st b)) :
    ∀ (l : List β) (st : PassState), P st → P (l.foldl f st) := by
  intro l
  induction l with
  | nil => intro st hst; exact hst
  | cons b rest ih => intro st hst; exact ih _ (h st b hst)

theorem AlignOK_one (cfg : Config)
    (h : ∃ j, cfg.maxAlignment = 2 ^ j ∧ j ≤ 63) : AlignOK cfg 1 := by
  obtain ⟨j, hj, _⟩ := h
  exact ⟨⟨0, rfl⟩, by rw [hj]; exact Nat.one_le_two_pow⟩

theorem AlignOK_max (cfg : Config) (a b : Nat) (ha : AlignOK cfg a)
    (hb : AlignOK cfg b) : AlignOK cfg (max a b) := by
  rcases le_total a b with h | h
  · rw [Nat.max_eq_right h]; exact hb
  · rw [Nat.max_eq_left h]; exact ha

theorem doSymbol_alignOK (cfg : Config) (st : PassState) (sym : Nat)
    (na : Option Nat) (hwf : OracleWF cfg)
    (hna : ∀ a, na = some a → AlignOK cfg a)
    (hst : AlignOK cfg st.alignment) :
    AlignOK cfg (doSymbol cfg st sym na).1.alignment := by
  obtain ⟨hmax, hga, hda, hpa, _⟩ := hwf
  unfold doSymbol
  by_cases h1 : (st.symtab sym).klass = SymClass.other
  · simp only [h1, reduceIte]
    exact hst
  · by_cases h2 : (getSizeAndAlignment cfg st.symtab sym true).size = 0
    · simp only [h1, h2, reduceIte, if_true, if_false]
      exact hst
    · simp only [h1, h2, reduceIte, if_false]
      apply AlignOK_max cfg _ _ hst
      cases hna' : na with
      | some a => simp only [Option.getD_some]; exact hna a hna'
      | none =>
        simp only [Option.getD_none]
        unfold getSizeAndAlignment at h2 ⊢
        cases hk : (st.symtab sym).klass with
        | descriptor => exact hda
        | procPointer => exact hpa
        | procedure =>
          rw [hk] at h2
          exact absurd rfl h2
        | object =>
          rw [hk] at h2
          cases hm : cfg.measureSize sym with
          | none =>
            rw [hm] at h2
            exact absurd rfl h2
          | some sz => exact hga sym
        | other => exact absurd hk h1

theorem recordEdgeStep_alignment (cfg : Config) (base : SymbolAndOffset)
    (st : PassState) (r : SymbolAndOffset) :
    (recordEdgeStep cfg base st r).alignment = st.alignment := by
  unfold recordEdgeStep
  by_cases h1 : r.symbol = base.symbol <;> by_cases h2 : r.offset ≠ base.offset <;>
    simp [h1, h2]

theorem recordEdges_alignment (cfg : Config) (base : SymbolAndOffset) :
    ∀ (l : List SymbolAndOffset) (st : PassState),
    (recordEdges cfg base st l).alignment = st.alignment := by
  intro l
  induction l with
  | nil => intro st; rfl
  | cons r rest ih =>
    intro st
    rw [recordEdges_cons, ih, recordEdgeStep_alignment]

theorem recordEdges_offset (cfg : Config) (base : SymbolAndOffset) :
    ∀ (l : List SymbolAndOffset) (st : PassState),
    (recordEdges cfg base st l).offset = st.offset := by
  intro l
  induction l with
  | nil => intro st; rfl
  | cons r rest ih =>
    intro st
    rw [recordEdges_cons, ih]
    unfold recordEdgeStep
    by_cases h1 : r.symbol = base.symbol <;> by_cases h2 : r.offset ≠ base.offset <;>
      simp [h1, h2]

theorem doEquivalenceSet_alignment (cfg : Config) (st : PassState)
    (set : List EqObj) :
    (doEquivalenceSet cfg st set).alignment = st.alignment := by
  show (match chooseRep (resolvedObjects cfg st set) with
        | none => st
        | some (_, b) => recordEdges cfg b st (resolvedObjects cfg st set)).alignment
      = st.alignment
  cases chooseRep (resolvedObjects cfg st set) with
  | none => rfl
  | some p => exact recordEdges_alignment cfg p.2 _ st

theorem resolvePassStep_alignment (cfg : Config) (st : PassState) (k : Nat) :
    (resolvePassStep cfg st k).alignment = st.alignment := by
  unfold resolvePassStep
  split
  · rfl
  · dsimp only
    split <;> rfl

theorem resolvePass_alignment (cfg : Config) (st : PassState) :
    (resolvePass cfg st).alignment = st.alignment := by
  unfold resolvePass
  have h : ∀ (l : List Nat) (s : PassState),
      (l.foldl (resolvePassStep cfg) s).alignment = s.alignment := by
    intro l
    induction l with
    | nil => intro s; rfl
    | cons k rest ih =>
      intro s
      rw [List.foldl_cons, ih, resolvePassStep_alignment]
  exact h _ st

theorem placeEqBlockStep_alignOK (cfg : Config) (st : PassState) (k : Nat)
    (hwf : OracleWF cfg) (hst : AlignOK cfg st.alignment) :
    AlignOK cfg (placeEqBlockStep cfg st k).alignment := by
  unfold placeEqBlockStep
  by_cases h1 : (st.symtab k).commonBlock.isSome
  · simp only [h1, reduceIte]
    exact hst
  · simp only [h1, reduceIte, Bool.false_eq_true, if_false]
    have hds := doSymbol_alignOK cfg st k none hwf (by intro a h; cases h) hst
    split
    · exact hds
    · exact hds

theorem placeSymbolStep_alignOK (cfg : Config) (st : PassState) (sym : Nat)
    (hwf : OracleWF cfg) (hst : AlignOK cfg st.alignment) :
    AlignOK cfg (placeSymbolStep cfg st sym).alignment := by
  unfold placeSymbolStep
  by_cases h1 : (st.symtab sym).commonBlock.isNone ∧
      lookupA st.dependents sym = none ∧ lookupA st.equivalenceBlock sym = none
  · rw [if_pos h1]
    dsimp only
    cases hax : cfg.isAIX with
    | true =>
      simp only [reduceIte]
      have hna : ∀ a, cfg.specialAlign sym = some a → AlignOK cfg a :=
        fun a ha => hwf.2.2.2.2 sym a ha
      have hds := doSymbol_alignOK cfg st sym (cfg.specialAlign sym) hwf hna hst
      split
      · split
        · exact doSymbol_alignOK cfg _ _ none hwf (by intro a h; cases h) hds
        · exact hds
      · exact hds
    | false =>
      simp only [Bool.false_eq_true, reduceIte]
      have hds := doSymbol_alignOK cfg st sym none hwf (by intro a h; cases h) hst
      split
      · split
        · exact doSymbol_alignOK cfg _ _ none hwf (by intro a h; cases h) hds
        · exact hds
      · exact hds
  · rw [if_neg h1]
    exact hst

theorem computeOnePre_alignOK (cfg : Config) (scope : ScopeData)
    (symtab : Nat → SymbolData) (blocks : Nat → BlockData)
    (hwf : OracleWF cfg) :
    AlignOK cfg (computeOnePre cfg scope symtab blocks).alignment := by
  unfold computeOnePre
  apply foldl_preserves (fun s => AlignOK cfg s.alignment)
    (placeSymbolStep cfg)
    (fun s b hs => placeSymbolStep_alignOK cfg s b hwf hs)
  unfold placeEqBlocks
  apply foldl_preserves (fun s => AlignOK cfg s.alignment)
    (placeEqBlockStep cfg)
    (fun s b hs => placeEqBlockStep_alignOK cfg s b hwf hs)
  rw [resolvePass_alignment]
  apply foldl_preserves (fun s => AlignOK cfg s.alignment)
    (doEquivalenceSet cfg)
    (fun s b hs => by rw [doEquivalenceSet_alignment]; exact hs)
  exact AlignOK_one cfg hwf.1

/-- C8: for every scope whose processing completes (the body of `Compute`
past the guards), the recorded final size — the offset cursor rounded up
by `Align` to the accumulated alignment — is a multiple of the recorded
final alignment, given well-formed alignment oracles and no overflow of
the final rounding. -/
theorem C8_scope_size_multiple (cfg : Config) (scope : ScopeData)
    (symtab : Nat → SymbolData) (blocks : Nat → BlockData)
    (hwf : OracleWF cfg)
    (hoffW : (computeOnePre cfg scope symtab blocks).offset +
      cfg.maxAlignment ≤ W) :
    ∃ A, (computeOne cfg scope symtab blocks).1.alignment = some A ∧
      A ∣ (computeOne cfg scope symtab blocks).1.size := by
  obtain ⟨⟨k, hk⟩, hle⟩ := computeOnePre_alignOK cfg scope symtab blocks hwf
  obtain ⟨j, hj, hj63⟩ := hwf.1
  set st := computeOnePre cfg scope symtab blocks with hst
  have hkj : k ≤ j := by
    have h2 : (2 : Nat) ^ k ≤ 2 ^ j := by
      rw [← hk, ← hj]
      exact hle
    exact (Nat.pow_le_pow_iff_right (by omega)).mp h2
  have hmin : min st.alignment cfg.maxAlignment = 2 ^ k := by
    rw [Nat.min_eq_left hle, hk]
  have h2km : (2 : Nat) ^ k ≤ cfg.maxAlignment := by
    rw [← hk]
    exact hle
  have halign := align_eq_roundUp cfg.maxAlignment st.offset st.alignment k
    hmin (by omega) (by omega)
  refine ⟨st.alignment, rfl, ?_⟩
  show st.alignment ∣ align cfg.maxAlignment st.offset st.alignment
  rw [halign, hk]
  exact ⟨(st.offset + 2 ^ k - 1) / 2 ^ k,
    Nat.mul_comm _ _⟩

/-- Witness for `C8_scope_size_multiple` on the C5 scope: alignment 8
divides size (both members are in a COMMON block, so the scope extent is
0, and 8 divides 0). -/
theorem C8_scope_size_multiple_witness :
    OracleWF cfgC5 ∧
    (computeOnePre cfgC5 scopeC5 tblC5 blocksC5).offset +
      cfgC5.maxAlignment ≤ W ∧
    (∃ A, (computeOne cfgC5 scopeC5 tblC5 blocksC5).1.alignment = some A ∧
      A ∣ (computeOne cfgC5 scopeC5 tblC5 blocksC5).1.size) :=
  have hwf : OracleWF cfgC5 := by
    refine ⟨⟨3, rfl, by omega⟩, ?_, ⟨⟨3, rfl⟩, by decide⟩, ⟨⟨3, rfl⟩, by decide⟩, ?_⟩
    · intro sym
      by_cases h : sym = 1
      · exact ⟨⟨2, by simp [cfgC5, h]⟩, by simp [cfgC5, h]⟩
      · exact ⟨⟨3, by simp [cfgC5, h]⟩, by simp [cfgC5, h]⟩
    · intro sym a h
      simp [cfgC5] at h
  ⟨hwf, by decide,
   C8_scope_size_multiple cfgC5 scopeC5 tblC5 blocksC5 hwf (by decide)⟩

/-! ## C7: idempotence of scope processing -/

/-- C7 counterexample: the claim's "returns without side effects on any
scope that already has an alignment value recorded" is false — child
scopes are recursed into *before* the guard is consulted.  `scope7` has
alignment `some 0` recorded, yet computing it processes its unprocessed
child (the child's size and alignment are assigned, and symbol 1 receives
a size in the symbol table). -/
theorem C7_counterexample :
    scope7.own.alignment = some 0 ∧
    (run7.1.children.map Scope.own) =
      [{ scope7child with size := 4, alignment := some 4 }] ∧
    run7.2.1 1 ≠ tblEx 1 := by
  refine ⟨rfl, by decide, by decide⟩

mutual

theorem compute_processed (cfg : Config) :
    ∀ (t : Scope) (tbl : Nat → SymbolData) (blocks : Nat → BlockData),
    ScopeProcessed (compute cfg t tbl blocks).1
  | .node own children, tbl, blocks => by
    have hl := computeList_processed cfg children tbl blocks
    unfold compute
    by_cases h1 : (own.hasSymbol && own.isDerivedTypeWithKindParameter) = true
    · simp only [h1, if_true, reduceIte]
      rw [Bool.and_eq_true] at h1
      exact ⟨Or.inr h1, hl⟩
    · simp only [h1, Bool.false_eq_true, if_false, reduceIte]
      by_cases h2 : own.alignment.isSome
      · simp only [h2, if_true, reduceIte]
        exact ⟨Or.inl h2, hl⟩
      · simp only [h2, Bool.false_eq_true, if_false, reduceIte]
        exact ⟨Or.inl rfl, hl⟩

theorem computeList_processed (cfg : Config) :
    ∀ (l : List Scope) (tbl : Nat → SymbolData) (blocks : Nat → BlockData),
    ScopeListProcessed (computeList cfg l tbl blocks).1
  | [], _, _ => trivial
  | c :: cs, tbl, blocks => by
    unfold computeList
    exact ⟨compute_processed cfg c tbl blocks, computeList_processed cfg cs _ _⟩

end

mutual

theorem compute_of_processed (cfg : Config) :
    ∀ (t : Scope) (tbl : Nat → SymbolData) (blocks : Nat → BlockData),
    ScopeProcessed t →
    compute cfg t tbl blocks = (t, tbl, blocks, ([] : List Diag))
  | .node own children, tbl, blocks, h => by
    obtain ⟨hown, hch⟩ := h
    have hl := computeList_of_processed cfg children tbl blocks hch
    unfold compute
    rw [hl]
    rcases hown with h2 | ⟨ha, hb⟩
    · by_cases h1 : (own.hasSymbol && own.isDerivedTypeWithKindParameter) = true
      · simp [h1]
      · simp [h1, h2]
    · have h1 : (own.hasSymbol && own.isDerivedTypeWithKindParameter) = true := by
        rw [ha, hb]
        rfl
      simp [h1]

theorem computeList_of_processed (cfg : Config) :
    ∀ (l : List Scope) (tbl : Nat → SymbolData) (blocks : Nat → BlockData),
    ScopeListProcessed l →
    computeList cfg l tbl blocks = (l, tbl, blocks, ([] : List Diag))
  | [], _, _, _ => rfl
  | c :: cs, tbl, blocks, h => by
    obtain ⟨h1, h2⟩ := h
    unfold computeList
    rw [compute_of_processed cfg c tbl blocks h1]
    dsimp only
    rw [computeList_of_processed cfg cs tbl blocks h2]
    rfl

end

/-- C7 (amended): calling the scope computation a second time on the
result of a first call is a no-op — the scope tree, the symbol table and
the common-block table are unchanged and no diagnostics are emitted.
(The per-scope guards skip all of the scope's *own* processing when its
alignment is recorded or it is a kind-parameterized derived-type scope,
but child scopes are still recursed into first, so an arbitrary scope
with an alignment value but unprocessed children is *not* free of side
effects — see the C7 counterexample.) -/
theorem C7_second_call_noop (cfg : Config) (t : Scope)
    (tbl : Nat → SymbolData) (blocks : Nat → BlockData) :
    compute cfg (compute cfg t tbl blocks).1 (compute cfg t tbl blocks).2.1
        (compute cfg t tbl blocks).2.2.1 =
      ((compute cfg t tbl blocks).1, (compute cfg t tbl blocks).2.1,
       (compute cfg t tbl blocks).2.2.1, ([] : List Diag)) :=
  compute_of_processed cfg _ _ _ (compute_processed cfg t tbl blocks)

/-! ## C10: the dependency map is acyclic and `Resolve` terminates -/

theorem insertSorted_length {α : Type} (k : Nat) (v : α) :
    ∀ m : List (Nat × α), (insertSorted k v m).length = m.length + 1 := by
  intro m
  induction m with
  | nil => rfl
  | cons p rest ih =>
    unfold insertSorted
    by_cases h : k < p.1
    · simp [h]
    · simp [h, ih]

/-- A successful resolution always ends at a symbol that is not itself a
dependent. -/
theorem resolveDep_some_symbol (deps : List (Nat × SymbolAndOffset)) :
    ∀ (fuel : Nat) (dep r : SymbolAndOffset),
    resolveDep deps fuel dep = some r → lookupA deps r.symbol = none := by
  intro fuel
  induction fuel with
  | zero => intro dep r h; simp [resolveDep] at h
  | succ n ih =>
    intro dep r h
    unfold resolveDep at h
    split at h
    · injection h with h
      subst h
      assumption
    · split at h
      · exact absurd h (by simp)
      · rename_i r2 hr2
        injection h with h
        subst h
        exact ih _ r2 hr2

/-- Fuel monotonicity of the fueled `Resolve`. -/
theorem resolveDep_mono (deps : List (Nat × SymbolAndOffset)) :
    ∀ (f : Nat) (dep r : SymbolAndOffset) (g : Nat),
    resolveDep deps f dep = some r → f ≤ g →
    resolveDep deps g dep = some r := by
  intro f
  induction f with
  | zero => intro dep r g h; simp [resolveDep] at h
  | succ n ih =>
    intro dep r g h hfg
    match g, hfg with
    | g' + 1, hfg =>
      unfold resolveDep at h ⊢
      split at h
      · exact h
      · rename_i d2 hl
        split at h
        · exact absurd h (by simp)
        · rename_i r2 hr2
          rw [ih d2 r2 g' hr2 (by omega)]
          exact h

theorem terminates_nil : Terminates [] := by
  intro dep
  simp [resolveDep, lookupA]

/-- Chains of the extended map `insertSorted k v m` need only one more
step than the corresponding chains of `m`, when the inserted key and the
inserted value's symbol are absent from `m` and distinct. -/
theorem resolveDep_insert (m : List (Nat × SymbolAndOffset)) (k : Nat)
    (v : SymbolAndOffset) (hk : lookupA m k = none)
    (hv : lookupA m v.symbol = none) (hkv : v.symbol ≠ k) :
    ∀ (fuel : Nat) (dep r : SymbolAndOffset),
    resolveDep m fuel dep = some r →
    (resolveDep (insertSorted k v m) (fuel + 1) dep).isSome := by
  have hvk : lookupA (insertSorted k v m) v.symbol = none := by
    rw [lookupA_insertSorted_ne m v.symbol k v hkv]
    exact hv
  intro fuel
  induction fuel with
  | zero => intro dep r h; simp [resolveDep] at h
  | succ n ih =>
    intro dep r h
    unfold resolveDep at h
    split at h
    · rename_i hl
      by_cases hdk : dep.symbol = k
      · -- the old chain ended at k; the new chain continues k → v and stops
        show (resolveDep (insertSorted k v m) (n + 2) dep).isSome
        unfold resolveDep
        rw [hdk, lookupA_insertSorted_self m k v hk]
        have hv1 : resolveDep (insertSorted k v m) (n + 1) v = some v := by
          unfold resolveDep
          rw [hvk]
        simp [hv1]
      · show (resolveDep (insertSorted k v m) (n + 2) dep).isSome
        unfold resolveDep
        rw [lookupA_insertSorted_ne m dep.symbol k v hdk, hl]
        simp
    · rename_i d2 hl
      split at h
      · exact absurd h (by simp)
      · rename_i r2 hr2
        have hdk : dep.symbol ≠ k := by
          intro he
          rw [he, hk] at hl
          cases hl
        show (resolveDep (insertSorted k v m) (n + 2) dep).isSome
        unfold resolveDep
        rw [lookupA_insertSorted_ne m dep.symbol k v hdk, hl]
        have hsome := ih d2 r2 hr2
        cases hih : resolveDep (insertSorted k v m) (n + 1) d2 with
        | none => rw [hih] at hsome; simp at hsome
        | some s => simp [hih]

theorem terminates_insert (m : List (Nat × SymbolAndOffset)) (k : Nat)
    (v : SymbolAndOffset) (hT : Terminates m) (hk : lookupA m k = none)
    (hv : lookupA m v.symbol = none) (hkv : v.symbol ≠ k) :
    Terminates (insertSorted k v m) := by
  intro dep
  have h1 := hT dep
  cases h2 : resolveDep m (m.length + 1) dep with
  | none => rw [h2] at h1; simp at h1
  | some r =>
    have h3 := resolveDep_insert m k v hk hv hkv (m.length + 1) dep r h2
    rw [insertSorted_length k v m]
    exact h3

theorem terminates_emplace (m : List (Nat × SymbolAndOffset)) (k : Nat)
    (v : SymbolAndOffset) (hT : Terminates m)
    (hv : lookupA m v.symbol = none) (hkv : v.symbol ≠ k) :
    Terminates (emplaceA m k v) := by
  unfold emplaceA
  by_cases h : (lookupA m k).isSome
  · simp only [h, if_true, reduceIte]
    exact hT
  · simp only [h, if_false, Bool.false_eq_true, reduceIte]
    apply terminates_insert m k v hT _ hv hkv
    cases hn : lookupA m k with
    | none => rfl
    | some w => rw [hn] at h; simp at h

/-- Every resolution performed by the pass ends at a non-dependent
symbol, given termination. -/
theorem resolveNow_symbol_none (m : List (Nat × SymbolAndOffset))
    (hT : Terminates m) (dep : SymbolAndOffset) :
    lookupA m (resolveNow m dep).symbol = none := by
  unfold resolveNow
  have h1 := hT dep
  cases h2 : resolveDep m (m.length + 1) dep with
  | none => rw [h2] at h1; simp at h1
  | some r =>
    simp only [h2, Option.getD_some]
    exact resolveDep_some_symbol m _ dep r h2

theorem recordEdgeStep_terminates (cfg : Config) (base : SymbolAndOffset)
    (st : PassState) (r : SymbolAndOffset) (hT : Terminates st.dependents)
    (hb : lookupA st.dependents base.symbol = none) :
    Terminates (recordEdgeStep cfg base st r).dependents ∧
    lookupA (recordEdgeStep cfg base st r).dependents base.symbol = none := by
  unfold recordEdgeStep
  by_cases h1 : r.symbol = base.symbol
  · by_cases h2 : r.offset ≠ base.offset
    · rw [if_pos h1, if_pos h2]
      exact ⟨hT, hb⟩
    · rw [if_pos h1, if_neg h2]
      exact ⟨hT, hb⟩
  · simp only [h1, if_false, reduceIte]
    refine ⟨terminates_emplace _ _ _ hT hb (fun hh => h1 hh.symm), ?_⟩
    rw [lookupA_emplaceA_ne _ base.symbol r.symbol _ (fun hh => h1 hh.symm)]
    exact hb

theorem recordEdges_terminates (cfg : Config) (base : SymbolAndOffset) :
    ∀ (l : List SymbolAndOffset) (st : PassState),
    Terminates st.dependents →
    lookupA st.dependents base.symbol = none →
    Terminates (recordEdges cfg base st l).dependents ∧
    lookupA (recordEdges cfg base st l).dependents base.symbol = none := by
  intro l
  induction l with
  | nil => intro st hT hb; exact ⟨hT, hb⟩
  | cons r rest ih =>
    intro st hT hb
    rw [recordEdges_cons]
    obtain ⟨h1, h2⟩ := recordEdgeStep_terminates cfg base st r hT hb
    exact ih _ h1 h2

theorem doEquivalenceSet_terminates (cfg : Config) (st : PassState)
    (set : List EqObj) (hT : Terminates st.dependents) :
    Terminates (doEquivalenceSet cfg st set).dependents := by
  cases hrep : chooseRep (resolvedObjects cfg st set) with
  | none =>
    have heq : doEquivalenceSet cfg st set = st := by
      show (match chooseRep (resolvedObjects cfg st set) with
            | none => st
            | some (_, b) => recordEdges cfg b st (resolvedObjects cfg st set)) = st
      rw [hrep]
    rw [heq]
    exact hT
  | some p =>
    obtain ⟨ri, base⟩ := p
    rw [doEquivalenceSet_eq_recordEdges cfg st set ri base hrep]
    have hmem : base ∈ resolvedObjects cfg st set :=
      List.get?_mem (chooseRep_spec _ _ _ hrep).1
    have hb : lookupA st.dependents base.symbol = none := by
      unfold resolvedObjects at hmem
      obtain ⟨o, _, ho⟩ := List.mem_map.mp hmem
      rw [← ho]
      exact resolveNow_symbol_none st.dependents hT _
    exact (recordEdges_terminates cfg base _ st hT hb).1

/-- A terminating dependency map has no self-loop: every edge's base is
distinct from its key. -/
theorem terminates_no_self_loop (m : List (Nat × SymbolAndOffset))
    (hT : Terminates m) : ∀ k d, lookupA m k = some d → d.symbol ≠ k := by
  intro k d hk hcontra
  have hall : ∀ (fuel : Nat) (dep : SymbolAndOffset), dep.symbol = k →
      resolveDep m fuel dep = none := by
    intro fuel
    induction fuel with
    | zero => intro dep _; rfl
    | succ n ih =>
      intro dep hdep
      unfold resolveDep
      rw [hdep, hk]
      simp [ih d hcontra]
  have hd := hT d
  rw [hall (m.length + 1) d hcontra] at hd
  simp at hd

/-! ### The resolution pass: path compression keeps termination and
leaves every entry pointing directly at a non-dependent base -/

theorem lookupA_updateA_ne {α : Type} (m : List (Nat × α)) (k x : Nat)
    (v : α) (h : x ≠ k) : lookupA (updateA m k v) x = lookupA m x := by
  induction m with
  | nil => rfl
  | cons p rest ih =>
    show lookupA ((if p.1 == k then (k, v) else p) :: updateA rest k v) x = _
    cases hb : p.1 == k with
    | true =>
      have hp : p.1 = k := beq_iff_eq.mp hb
      simp only [hb, if_true, reduceIte]
      rw [lookupA_cons, lookupA_cons, ih]
      have h1 : ¬ (k = x) := fun hh => h hh.symm
      have h2 : ¬ (p.1 = x) := by rw [hp]; exact h1
      rw [if_neg h1, if_neg h2]
    | false =>
      simp only [hb, Bool.false_eq_true, if_false, reduceIte]
      rw [lookupA_cons, lookupA_cons, ih]

theorem lookupA_updateA_self {α : Type} (m : List (Nat × α)) (k : Nat)
    (v w : α) (h : lookupA m k = some w) :
    lookupA (updateA m k v) k = some v := by
  induction m with
  | nil => simp [lookupA] at h
  | cons p rest ih =>
    rw [lookupA_cons] at h
    show lookupA ((if p.1 == k then (k, v) else p) :: updateA rest k v) k = _
    by_cases hp : p.1 = k
    · have hb : (p.1 == k) = true := beq_iff_eq.mpr hp
      simp only [hb, if_true, reduceIte]
      rw [lookupA_cons, if_pos rfl]
    · have hb : (p.1 == k) = false := beq_eq_false_iff_ne.mpr hp
      simp only [hb, Bool.false_eq_true, if_false, reduceIte]
      rw [lookupA_cons, if_neg hp]
      rw [if_neg hp] at h
      exact ih h

theorem lookupA_updateA_none {α : Type} (m : List (Nat × α)) (k x : Nat)
    (v : α) (h : lookupA m x = none) :
    lookupA (updateA m k v) x = none := by
  induction m with
  | nil => rfl
  | cons p rest ih =>
    rw [lookupA_cons] at h
    by_cases hp : p.1 = x
    · simp [hp] at h
    · rw [if_neg hp] at h
      show lookupA ((if p.1 == k then (k, v) else p) :: updateA rest k v) x = _
      cases hb : p.1 == k with
      | true =>
        have hpk : p.1 = k := beq_iff_eq.mp hb
        have hkx : ¬ (k = x) := by
          rw [← hpk]
          exact hp
        simp only [hb, if_true, reduceIte]
        rw [lookupA_cons, if_neg hkx]
        exact ih h
      | false =>
        simp only [hb, Bool.false_eq_true, if_false, reduceIte]
        rw [lookupA_cons, if_neg hp]
        exact ih h

theorem resolveDep_update (m : List (Nat × SymbolAndOffset)) (k : Nat)
    (r : SymbolAndOffset) (hr : lookupA m r.symbol = none) :
    ∀ (fuel : Nat) (dep s : SymbolAndOffset),
    resolveDep m fuel dep = some s →
    (resolveDep (updateA m k r) fuel dep).isSome := by
  have hr' : lookupA (updateA m k r) r.symbol = none :=
    lookupA_updateA_none m k r.symbol r hr
  intro fuel
  induction fuel with
  | zero => intro dep s h; simp [resolveDep] at h
  | succ n ih =>
    intro dep s h
    unfold resolveDep at h
    split at h
    · rename_i hl
      unfold resolveDep
      rw [lookupA_updateA_none m k dep.symbol r hl]
      simp
    · rename_i d2 hl
      split at h
      · exact absurd h (by simp)
      · rename_i r2 hr2
        unfold resolveDep
        by_cases hdk : dep.symbol = k
        · rw [hdk, lookupA_updateA_self m k r d2 (by rw [← hdk]; exact hl)]
          cases n with
          | zero => simp [resolveDep] at hr2
          | succ n2 =>
            have h1 : resolveDep (updateA m k r) (n2 + 1) r = some r := by
              unfold resolveDep
              rw [hr']
            simp [h1]
        · rw [lookupA_updateA_ne m k dep.symbol r hdk, hl]
          have hsome := ih d2 r2 hr2
          cases hih : resolveDep (updateA m k r) n d2 with
          | none => rw [hih] at hsome; simp at hsome
          | some s2 => simp [hih]

theorem terminates_update (m : List (Nat × SymbolAndOffset)) (k : Nat)
    (r : SymbolAndOffset) (hT : Terminates m)
    (hr : lookupA m r.symbol = none) : Terminates (updateA m k r) := by
  intro dep
  have h1 := hT dep
  cases h2 : resolveDep m (m.length + 1) dep with
  | none => rw [h2] at h1; simp at h1
  | some s =>
    have h3 := resolveDep_update m k r hr (m.length + 1) dep s h2
    have hlen : (updateA m k r).length = m.length := List.length_map _ _
    rw [hlen]
    exact h3

/-- The dependents component of one resolution-pass step. -/
theorem resolvePassStep_deps (cfg : Config) (st : PassState) (k : Nat) :
    (resolvePassStep cfg st k).dependents =
      match lookupA st.dependents k with
      | none => st.dependents
      | some dep0 => updateA st.dependents k (resolveNow st.dependents dep0) := by
  unfold resolvePassStep
  split
  · rfl
  · dsimp only
    split <;> rfl

theorem lookupA_some_mem {α : Type} (m : List (Nat × α)) (k : Nat) (v : α)
    (h : lookupA m k = some v) : k ∈ m.map (fun p => p.1) := by
  induction m with
  | nil => simp [lookupA] at h
  | cons p rest ih =>
    rw [lookupA_cons] at h
    by_cases hp : p.1 = k
    · simp [hp]
    · rw [if_neg hp] at h
      simp [ih h]

theorem resolvePass_fold_direct (cfg : Config) :
    ∀ (keys : List Nat) (st : PassState),
    Terminates st.dependents →
    (∀ k, k ∉ keys → ∀ d, lookupA st.dependents k = some d →
      lookupA st.dependents d.symbol = none) →
    Terminates (keys.foldl (resolvePassStep cfg) st).dependents ∧
    (∀ k d, lookupA (keys.foldl (resolvePassStep cfg) st).dependents k = some d →
      lookupA (keys.foldl (resolvePassStep cfg) st).dependents d.symbol = none) := by
  intro keys
  induction keys with
  | nil =>
    intro st hT hproc
    exact ⟨hT, fun k d h => hproc k (by simp) d h⟩
  | cons k0 rest ih =>
    intro st hT hproc
    rw [List.foldl_cons]
    have hdeps := resolvePassStep_deps cfg st k0
    have hT' : Terminates (resolvePassStep cfg st k0).dependents := by
      rw [hdeps]
      cases hl : lookupA st.dependents k0 with
      | none => exact hT
      | some dep0 =>
        exact terminates_update _ _ _ hT (resolveNow_symbol_none _ hT dep0)
    apply ih _ hT'
    intro k hk d hkd
    rw [hdeps] at hkd ⊢
    cases hl : lookupA st.dependents k0 with
    | none =>
      simp only [hl] at hkd ⊢
      by_cases hk0 : k = k0
      · rw [hk0, hl] at hkd
        cases hkd
      · exact hproc k (by simp [hk0, hk]) d hkd
    | some dep0 =>
      simp only [hl] at hkd ⊢
      by_cases hk0 : k = k0
      · subst hk0
        rw [lookupA_updateA_self st.dependents k (resolveNow st.dependents dep0)
          dep0 hl] at hkd
        injection hkd with hkd
        subst hkd
        exact lookupA_updateA_none _ _ _ _ (resolveNow_symbol_none _ hT dep0)
      · rw [lookupA_updateA_ne st.dependents k0 k _ hk0] at hkd
        have h1 := hproc k (by simp [hk0, hk]) d hkd
        exact lookupA_updateA_none _ _ _ _ h1

/-- C10: the dependency map built by processing a scope's equivalence
sets from an empty map is acyclic: every recorded edge maps a symbol to a
base symbol distinct from it; `Resolve` terminates on every entry (and
indeed on every starting dependency) with fuel `size + 1`, ending at a
symbol that is not itself a dependent; and after the resolution pass
every aliased symbol maps directly to a non-aliased base symbol plus a
final offset. -/
theorem C10_dependency_map_acyclic (cfg : Config) (st0 : PassState)
    (sets : List (List EqObj)) (h0 : st0.dependents = []) :
    (∀ k d, lookupA (sets.foldl (doEquivalenceSet cfg) st0).dependents k =
      some d → d.symbol ≠ k) ∧
    (∀ dep : SymbolAndOffset, ∃ r,
      resolveDep (sets.foldl (doEquivalenceSet cfg) st0).dependents
        ((sets.foldl (doEquivalenceSet cfg) st0).dependents.length + 1) dep =
        some r ∧
      lookupA (sets.foldl (doEquivalenceSet cfg) st0).dependents r.symbol =
        none) ∧
    (∀ k d, lookupA (resolvePass cfg
        (sets.foldl (doEquivalenceSet cfg) st0)).dependents k = some d →
      lookupA (resolvePass cfg
        (sets.foldl (doEquivalenceSet cfg) st0)).dependents d.symbol = none) := by
  have hT0 : Terminates st0.dependents := by
    rw [h0]
    exact terminates_nil
  have hT : Terminates ((sets.foldl (doEquivalenceSet cfg) st0).dependents) := by
    apply foldl_preserves (fun s => Terminates s.dependents)
      (doEquivalenceSet cfg)
      (fun s b hs => doEquivalenceSet_terminates cfg s b hs) sets st0 hT0
  refine ⟨terminates_no_self_loop _ hT, ?_, ?_⟩
  · intro dep
    have h1 := hT dep
    cases h2 : resolveDep (sets.foldl (doEquivalenceSet cfg) st0).dependents
        ((sets.foldl (doEquivalenceSet cfg) st0).dependents.length + 1) dep with
    | none => rw [h2] at h1; simp at h1
    | some r => exact ⟨r, rfl, resolveDep_some_symbol _ _ dep r h2⟩
  · unfold resolvePass
    apply (resolvePass_fold_direct cfg _ _ hT ?_).2
    intro k hk d hkd
    exact absurd (lookupA_some_mem _ k d hkd) hk

/-- Witness for `C10_dependency_map_acyclic` on the two overlapping
equivalence sets of the C9 scenario, starting from the empty map. -/
theorem C10_dependency_map_acyclic_witness :
    stEx.dependents = [] ∧
    ((∀ k d, lookupA ([setS1, setS2].foldl (doEquivalenceSet cfgEx)
        stEx).dependents k = some d → d.symbol ≠ k) ∧
     (∀ dep : SymbolAndOffset, ∃ r,
       resolveDep ([setS1, setS2].foldl (doEquivalenceSet cfgEx) stEx).dependents
         (([setS1, setS2].foldl (doEquivalenceSet cfgEx)
            stEx).dependents.length + 1) dep = some r ∧
       lookupA ([setS1, setS2].foldl (doEquivalenceSet cfgEx) stEx).dependents
         r.symbol = none) ∧
     (∀ k d, lookupA (resolvePass cfgEx
         ([setS1, setS2].foldl (doEquivalenceSet cfgEx) stEx)).dependents k =
        some d →
       lookupA (resolvePass cfgEx
         ([setS1, setS2].foldl (doEquivalenceSet cfgEx) stEx)).dependents
         d.symbol = none)) :=
  ⟨rfl, C10_dependency_map_acyclic cfgEx stEx [setS1, setS2] rfl⟩

/-! ## C9 (amended): disjoint, conflict-free equivalence sets commute -/

theorem resolveNow_absent (m : List (Nat × SymbolAndOffset))
    (dep : SymbolAndOffset) (h : lookupA m dep.symbol = none) :
    resolveNow m dep = dep := by
  unfold resolveNow resolveDep
  rw [h]
  rfl

theorem resolvedObjects_absent (cfg : Config) (st : PassState)
    (set : List EqObj)
    (h : ∀ o ∈ set, lookupA st.dependents o.symbol = none) :
    resolvedObjects cfg st set = localObjects cfg st.symtab set := by
  unfold resolvedObjects localObjects
  induction set with
  | nil => rfl
  | cons o rest ih =>
    rw [List.map_cons, List.map_cons]
    rw [resolveNow_absent st.dependents _ (h o (by simp))]
    rw [ih (fun o2 ho2 => h o2 (by simp [ho2]))]

theorem localObjects_mem_symbol (cfg : Config) (tbl : Nat → SymbolData)
    (set : List EqObj) (r : SymbolAndOffset)
    (h : r ∈ localObjects cfg tbl set) : ∃ o ∈ set, r.symbol = o.symbol := by
  unfold localObjects at h
  obtain ⟨o, ho, rfl⟩ := List.mem_map.mp h
  exact ⟨o, ho, rfl⟩

theorem recordEdges_eq (cfg : Config) (base : SymbolAndOffset) :
    ∀ (l : List SymbolAndOffset) (st : PassState),
    recordEdges cfg base st l =
      { symtab := st.symtab, blocks := st.blocks, offset := st.offset,
        alignment := st.alignment,
        dependents := edgeInserts base st.dependents l,
        equivalenceBlock := st.equivalenceBlock,
        diags := st.diags ++ edgeDiags cfg base l } := by
  intro l
  induction l with
  | nil =>
    intro st
    show st = _
    simp [edgeInserts, edgeDiags]
  | cons r rest ih =>
    intro st
    rw [recordEdges_cons, ih]
    unfold recordEdgeStep
    by_cases h1 : r.symbol = base.symbol
    · by_cases h2 : r.offset ≠ base.offset
      · simp [edgeInserts, edgeDiags, h1, h2]
      · simp [edgeInserts, edgeDiags, h1, h2]
    · simp [edgeInserts, edgeDiags, h1]

theorem doEquivalenceSet_eq_of_none (cfg : Config) (st : PassState)
    (set : List EqObj)
    (hrep : chooseRep (resolvedObjects cfg st set) = none) :
    doEquivalenceSet cfg st set = st := by
  show (match chooseRep (resolvedObjects cfg st set) with
        | none => st
        | some (_, b) => recordEdges cfg b st (resolvedObjects cfg st set)) = st
  rw [hrep]

theorem doEquivalenceSet_absent_none (cfg : Config) (st : PassState)
    (set : List EqObj)
    (habs : ∀ o ∈ set, lookupA st.dependents o.symbol = none)
    (hrep : chooseRep (localObjects cfg st.symtab set) = none) :
    doEquivalenceSet cfg st set = st :=
  doEquivalenceSet_eq_of_none cfg st set
    (by rw [resolvedObjects_absent cfg st set habs]; exact hrep)

theorem doEquivalenceSet_absent_some (cfg : Config) (st : PassState)
    (set : List EqObj) (i : Nat) (base : SymbolAndOffset)
    (habs : ∀ o ∈ set, lookupA st.dependents o.symbol = none)
    (hrep : chooseRep (localObjects cfg st.symtab set) = some (i, base)) :
    doEquivalenceSet cfg st set =
      { symtab := st.symtab, blocks := st.blocks, offset := st.offset,
        alignment := st.alignment,
        dependents := edgeInserts base st.dependents
          (localObjects cfg st.symtab set),
        equivalenceBlock := st.equivalenceBlock,
        diags := st.diags ++ edgeDiags cfg base
          (localObjects cfg st.symtab set) } := by
  have hro := resolvedObjects_absent cfg st set habs
  rw [doEquivalenceSet_eq_recordEdges cfg st set i base (by rw [hro]; exact hrep)]
  rw [hro, recordEdges_eq]

theorem insertSorted_comm {α : Type} (k1 k2 : Nat) (v1 v2 : α) (h : k1 ≠ k2) :
    ∀ m : List (Nat × α),
    insertSorted k1 v1 (insertSorted k2 v2 m) =
      insertSorted k2 v2 (insertSorted k1 v1 m) := by
  intro m
  induction m with
  | nil =>
    show insertSorted k1 v1 [(k2, v2)] = insertSorted k2 v2 [(k1, v1)]
    unfold insertSorted
    rcases Nat.lt_or_ge k1 k2 with h12 | h12
    · rw [if_pos h12, if_neg (by omega)]
      rfl
    · rw [if_neg (by omega), if_pos (by omega)]
      rfl
  | cons p rest ih =>
    by_cases h2p : k2 < p.1 <;> by_cases h1p : k1 < p.1
    · rcases Nat.lt_or_ge k1 k2 with h12 | h12
      · simp only [insertSorted, if_pos h2p, if_pos h1p, if_pos h12,
          if_neg (show ¬ k2 < k1 by omega)]
      · simp only [insertSorted, if_pos h2p, if_pos h1p,
          if_neg (show ¬ k1 < k2 by omega), if_pos (show k2 < k1 by omega)]
    · simp only [insertSorted, if_pos h2p, if_neg h1p,
        if_neg (show ¬ k1 < k2 by omega)]
    · simp only [insertSorted, if_neg h2p, if_pos h1p,
        if_neg (show ¬ k2 < k1 by omega)]
    · simp only [insertSorted, if_neg h2p, if_neg h1p]
      rw [ih]

theorem emplaceA_comm {α : Type} (m : List (Nat × α)) (k1 k2 : Nat)
    (v1 v2 : α) (h : k1 ≠ k2) :
    emplaceA (emplaceA m k1 v1) k2 v2 = emplaceA (emplaceA m k2 v2) k1 v1 := by
  have i12 : lookupA (insertSorted k1 v1 m) k2 = lookupA m k2 :=
    lookupA_insertSorted_ne m k2 k1 v1 (fun hh => h hh.symm)
  have i21 : lookupA (insertSorted k2 v2 m) k1 = lookupA m k1 :=
    lookupA_insertSorted_ne m k1 k2 v2 h
  unfold emplaceA
  cases s1 : (lookupA m k1).isSome <;> cases s2 : (lookupA m k2).isSome <;>
    simp only [s1, s2, Bool.false_eq_true, if_false, if_true, i12, i21,
      reduceIte]
  exact insertSorted_comm k2 k1 v2 v1 (fun hh => h hh.symm) m

theorem lookupA_edgeInserts_absent (base : SymbolAndOffset) :
    ∀ (l : List SymbolAndOffset) (m : List (Nat × SymbolAndOffset)) (x : Nat),
    (∀ r ∈ l, r.symbol ≠ x) →
    lookupA (edgeInserts base m l) x = lookupA m x := by
  intro l
  induction l with
  | nil => intro m x _; rfl
  | cons r rest ih =>
    intro m x hx
    by_cases h1 : r.symbol = base.symbol
    · simp only [edgeInserts, if_pos h1]
      exact ih m x (fun r2 hr2 => hx r2 (by simp [hr2]))
    · simp only [edgeInserts, if_neg h1]
      rw [ih _ x (fun r2 hr2 => hx r2 (by simp [hr2]))]
      exact lookupA_emplaceA_ne m x r.symbol _ (Ne.symm (hx r (by simp)))

theorem edgeInserts_emplaceA (base : SymbolAndOffset) :
    ∀ (l : List SymbolAndOffset) (m : List (Nat × SymbolAndOffset))
    (k : Nat) (v : SymbolAndOffset),
    (∀ r ∈ l, r.symbol ≠ k) →
    edgeInserts base (emplaceA m k v) l =
      emplaceA (edgeInserts base m l) k v := by
  intro l
  induction l with
  | nil => intro m k v _; rfl
  | cons r rest ih =>
    intro m k v hk
    by_cases h1 : r.symbol = base.symbol
    · simp only [edgeInserts, if_pos h1]
      exact ih m k v (fun r2 hr2 => hk r2 (by simp [hr2]))
    · simp only [edgeInserts, if_neg h1]
      rw [emplaceA_comm m k r.symbol v _ (Ne.symm (hk r (by simp)))]
      exact ih _ k v (fun r2 hr2 => hk r2 (by simp [hr2]))

theorem edgeInserts_comm (b1 b2 : SymbolAndOffset) :
    ∀ (lB lA : List SymbolAndOffset) (m : List (Nat × SymbolAndOffset)),
    (∀ ra ∈ lA, ∀ rb ∈ lB, ra.symbol ≠ rb.symbol) →
    edgeInserts b2 (edgeInserts b1 m lA) lB =
      edgeInserts b1 (edgeInserts b2 m lB) lA := by
  intro lB
  induction lB with
  | nil => intro lA m _; rfl
  | cons r lB2 ih =>
    intro lA m hdisj
    by_cases h1 : r.symbol = b2.symbol
    · simp only [edgeInserts, if_pos h1]
      exact ih lA m (fun ra ha rb hb => hdisj ra ha rb (by simp [hb]))
    · simp only [edgeInserts, if_neg h1]
      rw [← edgeInserts_emplaceA b1 lA m r.symbol _
        (fun ra ha => hdisj ra ha r (by simp))]
      exact ih lA _ (fun ra ha rb hb => hdisj ra ha rb (by simp [hb]))

theorem doEquivalenceSet_symtab (cfg : Config) (st : PassState)
    (set : List EqObj) : (doEquivalenceSet cfg st set).symtab = st.symtab := by
  cases hrep : chooseRep (resolvedObjects cfg st set) with
  | none => rw [doEquivalenceSet_eq_of_none cfg st set hrep]
  | some p =>
    obtain ⟨i, b⟩ := p
    rw [doEquivalenceSet_eq_recordEdges cfg st set i b hrep]
    exact recordEdges_symtab cfg b _ st

theorem doEquivalenceSet_lookup_absent (cfg : Config) (st : PassState)
    (set : List EqObj) (x : Nat)
    (habs : ∀ o ∈ set, lookupA st.dependents o.symbol = none)
    (hx : ∀ o ∈ set, o.symbol ≠ x)
    (h : lookupA st.dependents x = none) :
    lookupA (doEquivalenceSet cfg st set).dependents x = none := by
  cases hrep : chooseRep (localObjects cfg st.symtab set) with
  | none =>
    rw [doEquivalenceSet_absent_none cfg st set habs hrep]
    exact h
  | some p =>
    obtain ⟨i, b⟩ := p
    rw [doEquivalenceSet_absent_some cfg st set i b habs hrep]
    show lookupA (edgeInserts b st.dependents
      (localObjects cfg st.symtab set)) x = none
    have hsym : ∀ r ∈ localObjects cfg st.symtab set, r.symbol ≠ x := by
      intro r hr
      obtain ⟨o, ho, hsymb⟩ := localObjects_mem_symbol cfg st.symtab set r hr
      rw [hsymb]
      exact hx o ho
    rw [lookupA_edgeInserts_absent b _ st.dependents x hsym]
    exact h

theorem setsDisjoint_symm {A B : List EqObj} (h : SetsDisjoint A B) :
    SetsDisjoint B A :=
  fun ob hb oa ha => Ne.symm (h oa ha ob hb)

theorem doEquivalenceSet_comm (cfg : Config) (st : PassState) (A B : List EqObj)
    (habsA : ∀ o ∈ A, lookupA st.dependents o.symbol = none)
    (habsB : ∀ o ∈ B, lookupA st.dependents o.symbol = none)
    (hdisj : SetsDisjoint A B)
    (hcfA : SetConflictFree cfg st.symtab A)
    (hcfB : SetConflictFree cfg st.symtab B) :
    doEquivalenceSet cfg (doEquivalenceSet cfg st A) B =
      doEquivalenceSet cfg (doEquivalenceSet cfg st B) A := by
  have hsymA : ∀ (x : Nat), (∃ ob ∈ B, ob.symbol = x) →
      ∀ r ∈ localObjects cfg st.symtab A, r.symbol ≠ x := by
    intro x hxB r hr
    obtain ⟨ob, hob, rfl⟩ := hxB
    obtain ⟨oa, hoa, hsa⟩ := localObjects_mem_symbol cfg st.symtab A r hr
    rw [hsa]
    exact hdisj oa hoa ob hob
  have hsymB : ∀ (x : Nat), (∃ oa ∈ A, oa.symbol = x) →
      ∀ r ∈ localObjects cfg st.symtab B, r.symbol ≠ x := by
    intro x hxA r hr
    obtain ⟨oa, hoa, rfl⟩ := hxA
    obtain ⟨ob, hob, hsb⟩ := localObjects_mem_symbol cfg st.symtab B r hr
    rw [hsb]
    exact Ne.symm (hdisj oa hoa ob hob)
  cases hA : chooseRep (localObjects cfg st.symtab A) with
  | none =>
    cases hB : chooseRep (localObjects cfg st.symtab B) with
    | none =>
      rw [doEquivalenceSet_absent_none cfg st A habsA hA,
          doEquivalenceSet_absent_none cfg st B habsB hB]
      exact (doEquivalenceSet_absent_none cfg st A habsA hA).symm
    | some pB =>
      obtain ⟨iB, baseB⟩ := pB
      rw [doEquivalenceSet_absent_none cfg st A habsA hA]
      rw [doEquivalenceSet_absent_some cfg st B iB baseB habsB hB]
      refine (doEquivalenceSet_absent_none cfg _ A ?_ ?_).symm
      · intro o ho
        show lookupA (edgeInserts baseB st.dependents
          (localObjects cfg st.symtab B)) o.symbol = none
        rw [lookupA_edgeInserts_absent baseB _ st.dependents o.symbol
          (hsymB o.symbol ⟨o, ho, rfl⟩)]
        exact habsA o ho
      · exact hA
  | some pA =>
    obtain ⟨iA, baseA⟩ := pA
    have habsB1 : ∀ o ∈ B, lookupA (edgeInserts baseA st.dependents
        (localObjects cfg st.symtab A)) o.symbol = none := by
      intro o ho
      rw [lookupA_edgeInserts_absent baseA _ st.dependents o.symbol
        (hsymA o.symbol ⟨o, ho, rfl⟩)]
      exact habsB o ho
    cases hB : chooseRep (localObjects cfg st.symtab B) with
    | none =>
      rw [doEquivalenceSet_absent_some cfg st A iA baseA habsA hA]
      rw [doEquivalenceSet_absent_none cfg st B habsB hB]
      rw [doEquivalenceSet_absent_some cfg st A iA baseA habsA hA]
      refine doEquivalenceSet_absent_none cfg _ B ?_ ?_
      · exact habsB1
      · exact hB
    | some pB =>
      obtain ⟨iB, baseB⟩ := pB
      have habsA1 : ∀ o ∈ A, lookupA (edgeInserts baseB st.dependents
          (localObjects cfg st.symtab B)) o.symbol = none := by
        intro o ho
        rw [lookupA_edgeInserts_absent baseB _ st.dependents o.symbol
          (hsymB o.symbol ⟨o, ho, rfl⟩)]
        exact habsA o ho
      have hdA : edgeDiags cfg baseA (localObjects cfg st.symtab A) = [] := by
        have h2 := hcfA
        unfold SetConflictFree at h2
        rw [hA] at h2
        exact h2
      have hdB : edgeDiags cfg baseB (localObjects cfg st.symtab B) = [] := by
        have h2 := hcfB
        unfold SetConflictFree at h2
        rw [hB] at h2
        exact h2
      have eL := doEquivalenceSet_absent_some cfg
        { symtab := st.symtab, blocks := st.blocks, offset := st.offset,
          alignment := st.alignment,
          dependents := edgeInserts baseA st.dependents
            (localObjects cfg st.symtab A),
          equivalenceBlock := st.equivalenceBlock,
          diags := st.diags ++ edgeDiags cfg baseA
            (localObjects cfg st.symtab A) }
        B iB baseB habsB1 hB
      have eR := doEquivalenceSet_absent_some cfg
        { symtab := st.symtab, blocks := st.blocks, offset := st.offset,
          alignment := st.alignment,
          dependents := edgeInserts baseB st.dependents
            (localObjects cfg st.symtab B),
          equivalenceBlock := st.equivalenceBlock,
          diags := st.diags ++ edgeDiags cfg baseB
            (localObjects cfg st.symtab B) }
        A iA baseA habsA1 hA
      rw [doEquivalenceSet_absent_some cfg st A iA baseA habsA hA]
      rw [doEquivalenceSet_absent_some cfg st B iB baseB habsB hB]
      rw [eL, eR]
      dsimp only
      simp only [PassState.mk.injEq, true_and, and_true]
      refine ⟨?_, ?_⟩
      · exact edgeInserts_comm baseA baseB
          (localObjects cfg st.symtab B) (localObjects cfg st.symtab A)
          st.dependents
          (fun ra ha rb hb => by
            obtain ⟨oa, hoa, hsa⟩ :=
              localObjects_mem_symbol cfg st.symtab A ra ha
            obtain ⟨ob, hob, hsb⟩ :=
              localObjects_mem_symbol cfg st.symtab B rb hb
            rw [hsa, hsb]
            exact hdisj oa hoa ob hob)
      · rw [hdA, hdB]

theorem eqFold_perm (cfg : Config) (tbl : Nat → SymbolData) :
    ∀ {sets1 sets2 : List (List EqObj)}, sets1.Perm sets2 →
    ∀ st : PassState, st.symtab = tbl →
    List.Pairwise SetsDisjoint sets1 →
    (∀ S ∈ sets1, SetConflictFree cfg tbl S) →
    (∀ S ∈ sets1, ∀ o ∈ S, lookupA st.dependents o.symbol = none) →
    sets1.foldl (doEquivalenceSet cfg) st =
      sets2.foldl (doEquivalenceSet cfg) st := by
  intro sets1 sets2 hperm
  induction hperm with
  | nil => intro st _ _ _ _; rfl
  | cons x hp ih =>
    intro st hst hpw hcf habs
    rw [List.foldl_cons, List.foldl_cons]
    have hx : ∀ o ∈ x, lookupA st.dependents o.symbol = none :=
      habs x (by simp)
    have hhead := (List.pairwise_cons.mp hpw).1
    apply ih (doEquivalenceSet cfg st x)
    · rw [doEquivalenceSet_symtab]
      exact hst
    · exact (List.pairwise_cons.mp hpw).2
    · intro S hS
      exact hcf S (by simp [hS])
    · intro S hS o ho
      apply doEquivalenceSet_lookup_absent cfg st x o.symbol hx
      · intro o2 ho2
        exact hhead S hS o2 ho2 o ho
      · exact habs S (by simp [hS]) o ho
  | swap x y l =>
    intro st hst hpw hcf habs
    rw [List.foldl_cons, List.foldl_cons, List.foldl_cons, List.foldl_cons]
    have hxy : SetsDisjoint y x :=
      (List.pairwise_cons.mp hpw).1 x (by simp)
    have hcy : SetConflictFree cfg st.symtab y := by
      rw [hst]
      exact hcf y (by simp)
    have hcx : SetConflictFree cfg st.symtab x := by
      rw [hst]
      exact hcf x (by simp)
    rw [doEquivalenceSet_comm cfg st y x (habs y (by simp)) (habs x (by simp))
      hxy hcy hcx]
  | trans hp1 hp2 ih1 ih2 =>
    intro st hst hpw hcf habs
    rw [ih1 st hst hpw hcf habs]
    apply ih2 st hst
    · exact (hp1.pairwise_iff (fun h2 => setsDisjoint_symm h2)).mp hpw
    · intro S hS
      exact hcf S (hp1.mem_iff.mpr hS)
    · intro S hS o ho
      exact habs S (hp1.mem_iff.mpr hS) o ho

/-- C9 (amended): permuting equivalence sets can change final offsets
when sets overlap (see the counterexample), but when the sets are
pairwise disjoint (no shared member symbol) and each raises no conflict
diagnostic, processing order is irrelevant: any permutation of the
scope's equivalence sets yields the same final symbol table, common-block
table and diagnostics, and the same scope size and alignment — hence
identical final offsets for every symbol. -/
theorem C9_disjoint_order_independent (cfg : Config) (sd : ScopeData)
    (symtab : Nat → SymbolData) (blocks : Nat → BlockData)
    (sets1 sets2 : List (List EqObj)) (hperm : sets1.Perm sets2)
    (hpw : List.Pairwise SetsDisjoint sets1)
    (hcf : ∀ S ∈ sets1, SetConflictFree cfg symtab S) :
    (computeOne cfg { sd with equivalenceSets := sets1 } symtab blocks).1.size =
      (computeOne cfg { sd with equivalenceSets := sets2 } symtab
        blocks).1.size ∧
    (computeOne cfg { sd with equivalenceSets := sets1 } symtab
        blocks).1.alignment =
      (computeOne cfg { sd with equivalenceSets := sets2 } symtab
        blocks).1.alignment ∧
    (computeOne cfg { sd with equivalenceSets := sets1 } symtab blocks).2 =
      (computeOne cfg { sd with equivalenceSets := sets2 } symtab blocks).2 := by
  have hpre : computeOnePre cfg { sd with equivalenceSets := sets1 } symtab
      blocks =
      computeOnePre cfg { sd with equivalenceSets := sets2 } symtab blocks := by
    unfold computeOnePre
    dsimp only
    rw [eqFold_perm cfg symtab hperm
      { symtab := symtab, blocks := blocks, offset := 0, alignment := 1 }
      rfl hpw hcf (fun S _ o _ => rfl)]
  unfold computeOne
  rw [hpre]
  exact ⟨rfl, rfl, rfl⟩

/-- Witness for `C9_disjoint_order_independent`: the disjoint,
conflict-free sets `EQUIVALENCE (s3, s4)` and `EQUIVALENCE (s1, s2)` over
the example table, in the two orders. -/
theorem C9_disjoint_order_independent_witness :
    ([setS1, setS3] : List (List EqObj)).Perm [setS3, setS1] ∧
    List.Pairwise SetsDisjoint [setS1, setS3] ∧
    (∀ S ∈ [setS1, setS3], SetConflictFree cfgEx tblEx S) ∧
    (computeOne cfgEx { sdC9 with equivalenceSets := [setS1, setS3] } tblEx
        (fun _ => ({} : BlockData))).2 =
      (computeOne cfgEx { sdC9 with equivalenceSets := [setS3, setS1] } tblEx
        (fun _ => ({} : BlockData))).2 := by
  refine ⟨List.Perm.swap setS3 setS1 [], ?_, ?_, ?_⟩
  · refine List.pairwise_cons.mpr ⟨?_, List.pairwise_singleton _ _⟩
    intro S hS
    rw [List.mem_singleton.mp hS]
    decide
  · intro S hS
    rcases List.mem_cons.mp hS with rfl | hS2
    · exact rfl
    · rcases List.mem_cons.mp hS2 with rfl | h3
      · exact rfl
      · cases h3
  · exact (C9_disjoint_order_independent cfgEx sdC9 tblEx
      (fun _ => ({} : BlockData)) [setS1, setS3] [setS3, setS1]
      (List.Perm.swap setS3 setS1 [])
      (List.pairwise_cons.mpr ⟨fun S hS => by
          rw [List.mem_singleton.mp hS]; decide,
        List.pairwise_singleton _ _⟩)
      (fun S hS => by
        rcases List.mem_cons.mp hS with rfl | hS2
        · exact rfl
        · rcases List.mem_cons.mp hS2 with rfl | h3
          · exact rfl
          · cases h3)).2.2

end ComputeOffsets
